import Mathlib

/-!
Verification of the JSON/CSV/XML converter (`src/components/FileConverter.tsx`).

The component's conversion core is embedded shallowly:

* `Value` is the generic in-memory tree (scalar / array / object with
  insertion-ordered fields), covering every JavaScript value the converter
  can produce (`null`, booleans, integer numbers, strings, arrays, objects).
* `parseCSV`, `convertToCSV`, `xmlToObject`, `convertToXML` and
  `validateAndConvert` are translated directly from the source.
* `JSON.parse` / `JSON.stringify` and `DOMParser` are platform builtins with
  no source in the repository; they are modelled from the spec
  (`parseJSON`, `toJSON`, `xmlTextToElem`), with JSON numbers restricted to
  integers (floating point is out of scope for the embedding).

JavaScript object semantics are embedded with insertion-ordered association
lists: property creation appends, property update overwrites in place
(`setKey`), truthiness follows JavaScript (`truthy`).
-/

namespace FileConverter

/-- The generic tree value produced by the parsers: scalars, ordered arrays
and insertion-ordered string-keyed objects. -/
inductive Value where
  | null : Value
  | bool (b : Bool) : Value
  | num (n : Int) : Value
  | str (s : String) : Value
  | arr (items : List Value) : Value
  | obj (fields : List (String × Value)) : Value
deriving Repr

/-- JavaScript truthiness of a `Value` (`undefined` is represented by
`Option.none` at use sites). -/
def truthy : Value → Bool
  | .null => false
  | .bool b => b
  | .num n => n ≠ 0
  | .str s => s ≠ ""
  | .arr _ => true
  | .obj _ => true

/-- Property lookup on an insertion-ordered object. -/
def getKey : List (String × Value) → String → Option Value
  | [], _ => none
  | (k, v) :: rest, key => if k = key then some v else getKey rest key

/-- JavaScript property assignment `o[k] = v`: overwrite in place if the key
exists, append otherwise. -/
def setKey : List (String × Value) → String → Value → List (String × Value)
  | [], key, v => [(key, v)]
  | (k, w) :: rest, key, v =>
    if k = key then (k, v) :: rest else (k, w) :: setKey rest key v

/-- Decimal digits of a natural number, most significant first
(accumulator form). -/
def natToDecAux (n : Nat) (acc : List Char) : List Char :=
  if h : n = 0 then acc
  else natToDecAux (n / 10) (Char.ofNat (48 + n % 10) :: acc)
termination_by n
decreasing_by exact Nat.div_lt_self (Nat.pos_of_ne_zero h) (by omega)

/-- Decimal digits of a natural number (`0` renders as `"0"`). -/
def natToDec (n : Nat) : List Char :=
  if n = 0 then ['0'] else natToDecAux n []

/-- Decimal rendering of an integer, as characters. -/
def intToDecChars (n : Int) : List Char :=
  if n < 0 then '-' :: natToDec n.natAbs else natToDec n.natAbs

/-- Decimal rendering of an integer. -/
def intToDec (n : Int) : String := ⟨intToDecChars n⟩

mutual

/-- JavaScript string coercion `String(v)` / template-literal interpolation
of a `Value`. Arrays join their elements with `","` (with `null` rendered
empty, as `Array.prototype.toString` does); plain objects coerce to
`"[object Object]"`. -/
def jsToString : Value → String
  | .null => "null"
  | .bool true => "true"
  | .bool false => "false"
  | .num n => intToDec n
  | .str s => s
  | .arr items => String.intercalate "," (jsJoinItems items)
  | .obj _ => "[object Object]"

/-- Element strings for JavaScript `Array.prototype.toString`. -/
def jsJoinItems : List Value → List String
  | [] => []
  | x :: xs =>
    (match x with
     | .null => ""
     | v => jsToString v) :: jsJoinItems xs

end

/-! ## CSV parsing (`parseCSV`, source lines 83-104) -/

/-- JavaScript `String.prototype.trim` whitespace. -/
def isJsWs (c : Char) : Bool :=
  c = ' ' ∨ c = '\t' ∨ c = '\n' ∨ c = '\r' ∨ c = '\x0b' ∨ c = '\x0c'

/-- JavaScript `s.trim()`: strip whitespace from both ends. -/
def jsTrim (s : String) : String :=
  ⟨((s.data.dropWhile isJsWs).reverse.dropWhile isJsWs).reverse⟩

/-- Split a character list at every occurrence of `sep`; always returns at
least one (possibly empty) group. -/
def splitChar (sep : Char) : List Char → List (List Char)
  | [] => [[]]
  | c :: cs =>
    match splitChar sep cs with
    | [] => [[c]]
    | g :: gs => if c = sep then [] :: g :: gs else (c :: g) :: gs

/-- JavaScript `s.split(sep)` for a one-character separator. -/
def jsSplit (s : String) (sep : Char) : List String :=
  (splitChar sep s.data).map (fun l => ⟨l⟩)

/-- Field cleanup applied by `parseCSV` to each header and cell:
`v.trim().replace(/"/g, "")` — trim surrounding whitespace, then delete
every double-quote character (replacing each with the empty string is
exactly deletion). -/
def cleanCell (s : String) : String :=
  ⟨(jsTrim s).data.filter (fun c => c ≠ '"')⟩

/-- One row object: `headers.forEach((header, index) => row[header] =
values[index])` on a fresh object. -/
def csvRowObj (headers values : List String) : Value :=
  .obj ((headers.zip values).foldl (fun acc p => setKey acc p.1 (.str p.2)) [])

/-- The `for (let i = 1; ...)` loop of `parseCSV`: `i` is the index of the
current line in `lines`; a length mismatch aborts with the row error. -/
def csvParseRows (headers : List String) : List String → Nat → Except String (List Value)
  | [], _ => .ok []
  | line :: restLines, i =>
    let values := (jsSplit line ',').map cleanCell
    if values.length ≠ headers.length then
      .error ("Row " ++ toString (i + 1) ++ " has " ++ toString values.length ++
        " columns, expected " ++ toString headers.length)
    else
      match csvParseRows headers restLines (i + 1) with
      | .ok rest => .ok (csvRowObj headers values :: rest)
      | .error e => .error e

/-- `parseCSV` (source lines 83-104): trim, split on newlines, first line is
the header, remaining lines become one object each. -/
def parseCSV (csvData : String) : Except String Value :=
  match jsSplit (jsTrim csvData) '\n' with
  | [] => .error "CSV data is empty"
  | header :: dataLines =>
    (csvParseRows ((jsSplit header ',').map cleanCell) dataLines 1).map Value.arr

/-! ## CSV serialization (`convertToCSV`, source lines 146-162) -/

/-- `Object.keys(v)`: an object's keys in insertion order; a string's
character indices; an array's indices; `[]` for numbers and booleans;
a `TypeError` for `null`. -/
def jsKeysE : Value → Except String (List String)
  | .null => .error "Cannot convert undefined or null to object"
  | .obj fields => .ok (fields.map Prod.fst)
  | .str s => .ok ((List.range s.length).map toString)
  | .arr items => .ok ((List.range items.length).map toString)
  | .bool _ => .ok []
  | .num _ => .ok []

/-- JavaScript property read `v[k]` with a string key: `none` is
`undefined`; reading a property of `null` throws. -/
def jsGetE : Value → String → Except String (Option Value)
  | .null, _ => .error "Cannot read properties of null"
  | .obj fields, k => .ok (getKey fields k)
  | .str s, k =>
    .ok (match k.toNat? with
         | some i => if toString i = k ∧ i < s.length then some (.str ⟨[s.data.getD i ' ']⟩) else none
         | none => none)
  | .arr items, k =>
    .ok (match k.toNat? with
         | some i => if toString i = k then items.get? i else none
         | none => none)
  | .bool _, _ => .ok none
  | .num _, _ => .ok none

/-- `row[header] || ""`: an absent or falsy cell collapses to the empty
string. -/
def jsOrEmpty : Option Value → Value
  | some v => if truthy v then v else .str ""
  | none => .str ""

/-- One CSV cell: `` `"${row[header] || ""}"` ``. -/
def csvCell (row : Value) (header : String) : Except String String := do
  let v ← jsGetE row header
  pure ("\"" ++ jsToString (jsOrEmpty v) ++ "\"")

/-- The cells of one row, in header order. -/
def csvCells (row : Value) : List String → Except String (List String)
  | [] => .ok []
  | h :: hs => do
    let c ← csvCell row h
    let rest ← csvCells row hs
    pure (c :: rest)

/-- One CSV data row: the header keys' cells joined with `","`. -/
def csvLine (headers : List String) (row : Value) : Except String String := do
  let cells ← csvCells row headers
  pure (String.intercalate "," cells)

/-- The emitted lines for all rows. -/
def csvLines (headers : List String) : List Value → Except String (List String)
  | [] => .ok []
  | r :: rest => do
    let l ← csvLine headers r
    let ls ← csvLines headers rest
    pure (l :: ls)

/-- `convertToCSV` (source lines 146-162): requires an array; an empty array
yields `""`; otherwise the first element's keys become the header row and
every row re-emits those keys' values, each wrapped in double quotes. -/
def convertToCSV (data : Value) : Except String String :=
  match data with
  | .arr rows =>
    match rows with
    | [] => .ok ""
    | r0 :: _ => do
      let headers ← jsKeysE r0
      let lines ← csvLines headers rows
      pure (String.intercalate "\n" (String.intercalate "," headers :: lines))
  | _ => .error "CSV output requires array data"

/-! ## XML to object (`xmlToObject`, source lines 121-144) -/

/-- A DOM element as observed by `xmlToObject`: tag name, text content
(only consulted when there are no child elements) and child elements. -/
inductive XElem where
  | mk (tag : String) (text : String) (children : List XElem)
deriving Repr

/-- Tag name of an element. -/
def XElem.tag : XElem → String
  | .mk t _ _ => t

/-- Text content of an element. -/
def XElem.text : XElem → String
  | .mk _ t _ => t

/-- Child elements of an element. -/
def XElem.children : XElem → List XElem
  | .mk _ _ c => c

/-- Truthiness of `result[tag]` where an absent property reads as
`undefined` (falsy). -/
def existingTruthy : Option Value → Bool
  | none => false
  | some v => truthy v

/-- The loop body of `xmlToObject`: `if (result[tag])` — when the stored
value is truthy, push onto an existing array or start a two-element array;
otherwise (absent or falsy) plain assignment. -/
def insertChild (acc : List (String × Value)) (tag : String) (childData : Value) :
    List (String × Value) :=
  if existingTruthy (getKey acc tag) then
    match getKey acc tag with
    | some (.arr vs) => setKey acc tag (.arr (vs ++ [childData]))
    | some v => setKey acc tag (.arr [v, childData])
    | none => setKey acc tag childData
  else
    setKey acc tag childData

mutual

/-- `xmlToObject` (source lines 121-144): a leaf element (no child elements)
maps to its text content; a container element folds its children into an
object via `insertChild`. -/
def xmlToObject : XElem → Value
  | .mk _ text [] => .str text
  | .mk _ _ (c :: cs) => .obj (xmlChildren (c :: cs) [])

/-- The `for` loop over `element.children`. -/
def xmlChildren : List XElem → List (String × Value) → List (String × Value)
  | [], acc => acc
  | c :: cs, acc => xmlChildren cs (insertChild acc c.tag (xmlToObject c))

end

/-! ## XML serialization (`convertToXML`, source lines 164-180) -/

mutual

/-- `objectToXml` (source lines 165-177): arrays render as sibling `<item>`
elements, objects as sibling elements named after each key, anything else
via string coercion. -/
def objectToXml : Value → String
  | .arr items => String.intercalate "\n" (objectToXmlItems items)
  | .obj fields => String.intercalate "\n" (objectToXmlFields fields)
  | v => jsToString v

/-- `<item>` wrappers for an array's elements. -/
def objectToXmlItems : List Value → List String
  | [] => []
  | x :: xs => ("<item>" ++ objectToXml x ++ "</item>") :: objectToXmlItems xs

/-- Key-named wrappers for an object's fields. -/
def objectToXmlFields : List (String × Value) → List String
  | [] => []
  | (k, v) :: fs => ("<" ++ k ++ ">" ++ objectToXml v ++ "</" ++ k ++ ">") :: objectToXmlFields fs

end

/-- `convertToXML` (source lines 164-180): XML declaration plus a `<root>`
wrapper around `objectToXml`. -/
def convertToXML (data : Value) : String :=
  "<?xml version=\"1.0\" encoding=\"UTF-8\"?>\n<root>\n" ++ objectToXml data ++ "\n</root>"

/-! ## JSON serialization

Modelled from the spec: `JSON.stringify(parsedData, null, 2)` is a platform
builtin ("pretty-printed with 2-space indentation"); numbers are integers in
this model. -/

/-- Escape for one character inside a JSON string literal. -/
def escChar (c : Char) : List Char :=
  if c = '"' then ['\\', '"']
  else if c = '\\' then ['\\', '\\']
  else if c = '\n' then ['\\', 'n']
  else if c = '\t' then ['\\', 't']
  else if c = '\r' then ['\\', 'r']
  else if c = '\x08' then ['\\', 'b']
  else if c = '\x0c' then ['\\', 'f']
  else [c]

/-- Escaped body of a JSON string literal. -/
def escBody : List Char → List Char
  | [] => []
  | c :: cs => escChar c ++ escBody cs

/-- A quoted, escaped JSON string literal. -/
def escStr (s : String) : List Char :=
  '"' :: (escBody s.data ++ ['"'])

/-- Indentation for pretty printing: two spaces per depth level. -/
def indentChars (d : Nat) : List Char :=
  List.replicate (2 * d) ' '

mutual

/-- Modelled from the spec: the body of `JSON.stringify(·, null, 2)` at
depth `d` (pretty-printed with 2-space indentation). -/
def serVal : Value → Nat → List Char
  | .null, _ => ['n', 'u', 'l', 'l']
  | .bool true, _ => ['t', 'r', 'u', 'e']
  | .bool false, _ => ['f', 'a', 'l', 's', 'e']
  | .num n, _ => intToDecChars n
  | .str s, _ => escStr s
  | .arr [], _ => ['[', ']']
  | .arr (x :: xs), d =>
    '[' :: '\n' :: (serItems (x :: xs) (d + 1) ++ '\n' :: (indentChars d ++ [']']))
  | .obj [], _ => ['{', '}']
  | .obj (f :: fs), d =>
    '{' :: '\n' :: (serFields (f :: fs) (d + 1) ++ '\n' :: (indentChars d ++ ['}']))

/-- Array elements, one per line at depth `d`, separated by `",\n"`. -/
def serItems : List Value → Nat → List Char
  | [], _ => []
  | [x], d => indentChars d ++ serVal x d
  | x :: y :: xs, d =>
    indentChars d ++ (serVal x d ++ ',' :: '\n' :: serItems (y :: xs) d)

/-- Object fields, one `"key": value` per line at depth `d`. -/
def serFields : List (String × Value) → Nat → List Char
  | [], _ => []
  | [(k, v)], d => indentChars d ++ (escStr k ++ ':' :: ' ' :: serVal v d)
  | (k, v) :: g :: fs, d =>
    indentChars d ++ (escStr k ++ ':' :: ' ' :: (serVal v d ++ ',' :: '\n' :: serFields (g :: fs) d))

end

/-- `JSON.stringify(·, null, 2)` (source line 60), modelled from the spec. -/
def toJSON (v : Value) : String := ⟨serVal v 0⟩

/-! ## JSON parsing

Modelled from the spec: `JSON.parse` is a platform builtin ("standard JSON
parse"). Numbers are restricted to (optionally signed) integer literals;
`\uXXXX` escapes are not modelled. Duplicate object keys follow JavaScript:
first position, last value (`setKey`). The parser is fuelled; `parseJSON`
supplies fuel that is sufficient for every input. -/

/-- JSON insignificant whitespace. -/
def isWsChar (c : Char) : Bool :=
  c = ' ' ∨ c = '\n' ∨ c = '\t' ∨ c = '\r'

/-- Skip insignificant whitespace. -/
def skipWs : List Char → List Char
  | [] => []
  | c :: cs => if isWsChar c then skipWs cs else c :: cs

/-- Decode one escape character in a JSON string literal. -/
def unescapeChar (e : Char) : Option Char :=
  if e = '"' then some '"'
  else if e = '\\' then some '\\'
  else if e = '/' then some '/'
  else if e = 'n' then some '\n'
  else if e = 't' then some '\t'
  else if e = 'r' then some '\r'
  else if e = 'b' then some '\x08'
  else if e = 'f' then some '\x0c'
  else none

mutual

/-- Parse the body of a JSON string literal after the opening quote;
returns the decoded characters and the input after the closing quote. -/
def parseStringBody : List Char → Option (List Char × List Char)
  | [] => none
  | c :: cs =>
    if c = '"' then some ([], cs)
    else if c = '\\' then parseEscaped cs
    else (parseStringBody cs).map (fun p => (c :: p.1, p.2))

/-- Continue a string literal right after a backslash. -/
def parseEscaped : List Char → Option (List Char × List Char)
  | [] => none
  | e :: cs1 =>
    match unescapeChar e with
    | some u => (parseStringBody cs1).map (fun p => (u :: p.1, p.2))
    | none => none

end

/-- Numeric value of a decimal digit character. -/
def digitVal (c : Char) : Nat := c.toNat - 48

/-- Value of a most-significant-first digit string. -/
def valOfDigits (ds : List Char) : Nat :=
  ds.foldl (fun a c => 10 * a + digitVal c) 0

/-- Parse a nonempty run of decimal digits. -/
def parseNatNum (cs : List Char) : Option (Nat × List Char) :=
  let ds := cs.takeWhile Char.isDigit
  if ds = [] then none else some (valOfDigits ds, cs.dropWhile Char.isDigit)

/-- Parse an optionally `-`-signed integer literal. -/
def parseNumber : List Char → Option (Int × List Char)
  | [] => none
  | c :: cs1 =>
    if c = '-' then (parseNatNum cs1).map (fun p => (-(p.1 : Int), p.2))
    else (parseNatNum (c :: cs1)).map (fun p => ((p.1 : Int), p.2))

/-- Check that `lit` is a prefix of the input and drop it. -/
def dropLit : List Char → List Char → Option (List Char)
  | [], cs => some cs
  | _, [] => none
  | l :: ls, c :: cs => if c = l then dropLit ls cs else none

mutual

/-- Modelled from the spec: a standard JSON value parser (fuelled
recursive descent). -/
def parseValue : Nat → List Char → Option (Value × List Char)
  | 0, _ => none
  | fuel + 1, cs =>
    match skipWs cs with
    | [] => none
    | c :: cs1 =>
      if c = '"' then
        match parseStringBody cs1 with
        | some (content, rest) => some (.str ⟨content⟩, rest)
        | none => none
      else if c = '[' then
        match skipWs cs1 with
        | [] => none
        | c2 :: cs2 =>
          if c2 = ']' then some (.arr [], cs2)
          else
            match parseItems fuel (c2 :: cs2) with
            | some (items, rest) => some (.arr items, rest)
            | none => none
      else if c = '{' then
        match skipWs cs1 with
        | [] => none
        | c2 :: cs2 =>
          if c2 = '}' then some (.obj [], cs2)
          else
            match parseFields fuel (c2 :: cs2) [] with
            | some (fields, rest) => some (.obj fields, rest)
            | none => none
      else if c = 'n' then
        match dropLit ['u', 'l', 'l'] cs1 with
        | some rest => some (.null, rest)
        | none => none
      else if c = 't' then
        match dropLit ['r', 'u', 'e'] cs1 with
        | some rest => some (.bool true, rest)
        | none => none
      else if c = 'f' then
        match dropLit ['a', 'l', 's', 'e'] cs1 with
        | some rest => some (.bool false, rest)
        | none => none
      else
        match parseNumber (c :: cs1) with
        | some (n, rest) => some (.num n, rest)
        | none => none

/-- Parse the elements of a nonempty array, up to and including `]`. -/
def parseItems : Nat → List Char → Option (List Value × List Char)
  | 0, _ => none
  | fuel + 1, cs =>
    match parseValue fuel cs with
    | none => none
    | some (v, rest) =>
      match skipWs rest with
      | [] => none
      | c :: rest1 =>
        if c = ',' then
          match parseItems fuel rest1 with
          | some (vs, rest2) => some (v :: vs, rest2)
          | none => none
        else if c = ']' then some ([v], rest1)
        else none

/-- Parse the fields of a nonempty object, up to and including `}`;
duplicate keys overwrite in place as JavaScript objects do. -/
def parseFields : Nat → List Char → List (String × Value) → Option (List (String × Value) × List Char)
  | 0, _, _ => none
  | fuel + 1, cs, acc =>
    match skipWs cs with
    | [] => none
    | c :: cs1 =>
      if c = '"' then
        match parseStringBody cs1 with
        | none => none
        | some (keyCs, rest) =>
          match skipWs rest with
          | [] => none
          | c2 :: rest1 =>
            if c2 = ':' then
              match parseValue fuel rest1 with
              | none => none
              | some (v, rest2) =>
                match skipWs rest2 with
                | [] => none
                | c3 :: rest3 =>
                  if c3 = ',' then parseFields fuel rest3 (setKey acc ⟨keyCs⟩ v)
                  else if c3 = '}' then some (setKey acc ⟨keyCs⟩ v, rest3)
                  else none
            else none
      else none

end

/-- `JSON.parse` (source line 47), modelled from the spec; `none` stands for
a thrown `SyntaxError`. The fuel `2 * length + 2` dominates the recursion
depth of any input. -/
def parseJSON (s : String) : Option Value :=
  match parseValue (2 * s.length + 2) s.data with
  | some (v, rest) => if skipWs rest = [] then some v else none
  | none => none

/-! ## Measures and invariants for the JSON round trip -/

mutual

/-- Fuel measure of a value: parsing its serialization needs at most this
much fuel. -/
def weight : Value → Nat
  | .null => 1
  | .bool _ => 1
  | .num _ => 1
  | .str _ => 1
  | .arr items => weightItems items + 1
  | .obj fields => weightFields fields + 1

/-- Fuel measure of an array's element list. -/
def weightItems : List Value → Nat
  | [] => 1
  | x :: xs => weight x + weightItems xs + 1

/-- Fuel measure of an object's field list. -/
def weightFields : List (String × Value) → Nat
  | [] => 1
  | (_, v) :: fs => weight v + weightFields fs + 1

end

/-- `k` does not occur in the key list. -/
def keyNotIn (k : String) : List String → Bool
  | [] => true
  | k0 :: ks => (k0 ≠ k) && keyNotIn k ks

/-- The key list has no duplicates. -/
def keysNodup : List String → Bool
  | [] => true
  | k :: ks => keyNotIn k ks && keysNodup ks

mutual

/-- A canonical value: every object's keys are duplicate-free (as is true
of everything `JSON.parse` returns). -/
def canonV : Value → Bool
  | .null => true
  | .bool _ => true
  | .num _ => true
  | .str _ => true
  | .arr items => canonItems items
  | .obj fields => keysNodup (fields.map Prod.fst) && canonFields fields

/-- `canonV` on every element. -/
def canonItems : List Value → Bool
  | [] => true
  | x :: xs => canonV x && canonItems xs

/-- `canonV` on every field value. -/
def canonFields : List (String × Value) → Bool
  | [] => true
  | (_, v) :: fs => canonV v && canonFields fs

end

/-- The input does not continue with a decimal digit (so a number literal
just before it ends exactly there). -/
def numBoundary : List Char → Bool
  | [] => true
  | c :: _ => !c.isDigit

/-- What follows the first element of a serialized non-empty array at item
depth `dIn` and closing depth `dOut`: either the line break and closing
bracket, or a comma and the remaining items. -/
def itemsRest : List Value → Nat → Nat → List Char → List Char
  | [], _, dOut, rest => '\n' :: (indentChars dOut ++ ']' :: rest)
  | y :: ys, dIn, dOut, rest =>
    ',' :: '\n' :: (serItems (y :: ys) dIn ++ '\n' :: (indentChars dOut ++ ']' :: rest))

/-- What follows the first field's value of a serialized non-empty object. -/
def fieldsRest : List (String × Value) → Nat → Nat → List Char → List Char
  | [], _, dOut, rest => '\n' :: (indentChars dOut ++ '}' :: rest)
  | g :: gs, dIn, dOut, rest =>
    ',' :: '\n' :: (serFields (g :: gs) dIn ++ '\n' :: (indentChars dOut ++ '}' :: rest))

/-! ## XML text parsing

Modelled from the spec: `DOMParser.parseFromString(·, "text/xml")` is a
platform builtin ("parses text into a DOM tree; fails with ParseError if the
parser reports a parse error node; attributes are ignored"). The model
skips an optional XML declaration and attributes; comments, entities and
mixed self-closing forms are not modelled. -/

/-- Scan past an element's attribute region to `>`; reports whether the tag
was self-closing (`/>`). -/
def xmlSkipToGt : List Char → Option (Bool × List Char)
  | [] => none
  | '/' :: '>' :: rest => some (true, rest)
  | '>' :: rest => some (false, rest)
  | _ :: rest => xmlSkipToGt rest

/-- A character that ends a tag name. -/
def xmlNameEnd (c : Char) : Bool :=
  c = '>' ∨ c = '/' ∨ isWsChar c

mutual

/-- Modelled from the spec: parse one element `<tag ...>body</tag>`
(fuelled). -/
def xmlParseElem : Nat → List Char → Option (XElem × List Char)
  | 0, _ => none
  | fuel + 1, cs =>
    match skipWs cs with
    | '<' :: cs1 =>
      let nameCs := cs1.takeWhile (fun c => ¬ xmlNameEnd c)
      let cs2 := cs1.dropWhile (fun c => ¬ xmlNameEnd c)
      if nameCs = [] then none
      else
        match xmlSkipToGt cs2 with
        | none => none
        | some (true, rest) => some (.mk ⟨nameCs⟩ "" [], rest)
        | some (false, rest) =>
          match xmlParseBody fuel ⟨nameCs⟩ rest [] [] with
          | some (text, children, rest1) => some (.mk ⟨nameCs⟩ text children, rest1)
          | none => none
    | _ => none

/-- Modelled from the spec: parse an element body — direct text plus child
elements — up to and including the matching close tag (fuelled). -/
def xmlParseBody : Nat → String → List Char → List Char → List XElem →
    Option (String × List XElem × List Char)
  | 0, _, _, _, _ => none
  | fuel + 1, tag, cs, textAcc, childAcc =>
    match cs with
    | [] => none
    | '<' :: '/' :: cs1 =>
      let nameCs := cs1.takeWhile (fun c => c ≠ '>')
      let cs2 := cs1.dropWhile (fun c => c ≠ '>')
      if (⟨nameCs⟩ : String) = tag then
        match cs2 with
        | '>' :: rest => some (⟨textAcc.reverse⟩, childAcc.reverse, rest)
        | _ => none
      else none
    | '<' :: cs1 =>
      match xmlParseElem fuel ('<' :: cs1) with
      | some (child, rest) => xmlParseBody fuel tag rest textAcc (child :: childAcc)
      | none => none
    | c :: cs1 => xmlParseBody fuel tag cs1 (c :: textAcc) childAcc

end

/-- Modelled from the spec: skip the optional `<?xml ... ?>` declaration. -/
def xmlSkipDecl (cs : List Char) : List Char :=
  match skipWs cs with
  | '<' :: '?' :: cs1 => xmlSkipQm cs1
  | other => other
where
  /-- Drop characters up to and past the closing `?>`. -/
  xmlSkipQm : List Char → List Char
    | [] => []
    | '?' :: '>' :: rest => rest
    | _ :: rest => xmlSkipQm rest

/-- Modelled from the spec: the whole `DOMParser` step — the document's root
element, or `none` when a parse error node would be reported. -/
def xmlTextToElem (s : String) : Option XElem :=
  match xmlParseElem (2 * s.length + 2) (xmlSkipDecl s.data) with
  | some (root, rest) => if skipWs rest = [] then some root else none
  | none => none

/-- `parseXML` (source lines 106-119): DOM parse then `xmlToObject`; every
failure is rethrown as `"Failed to parse XML data"`. -/
def parseXML (xmlData : String) : Except String Value :=
  match xmlTextToElem xmlData with
  | some root => .ok (xmlToObject root)
  | none => .error "Failed to parse XML data"

/-! ## Conversion orchestrator (`validateAndConvert`, source lines 32-81) -/

/-- Message severity of `ConversionError.type`. -/
inductive Severity where
  | error : Severity
  | warning : Severity
deriving Repr, DecidableEq

/-- The `ConversionError` interface (source lines 12-15). -/
structure ConversionError where
  message : String
  type : Severity
deriving Repr, DecidableEq

/-- The `FileFormat` union type (source line 10). -/
inductive FileFormat where
  | json : FileFormat
  | csv : FileFormat
  | xml : FileFormat
deriving Repr, DecidableEq

/-- The component's state hooks (source lines 18-23). -/
structure ConverterState where
  inputData : String
  outputData : String
  inputFormat : FileFormat
  outputFormat : FileFormat
  error : Option ConversionError
  isConverting : Bool
deriving Repr, DecidableEq

/-- The parse step of `validateAndConvert` (source lines 44-55): a JSON
syntax error is rewrapped as the fixed message. -/
def parseInput : FileFormat → String → Except String Value
  | .json, s =>
    match parseJSON s with
    | some v => .ok v
    | none => .error "Invalid JSON format. Please check your syntax."
  | .csv, s => parseCSV s
  | .xml, s => parseXML s

/-- The serialize step of `validateAndConvert` (source lines 57-67). -/
def serializeOutput : FileFormat → Value → Except String String
  | .json, v => .ok (toJSON v)
  | .csv, v => convertToCSV v
  | .xml, v => .ok (convertToXML v)

/-- Parse with the input format, then serialize with the output format. -/
def convertPipeline (st : ConverterState) : Except String String :=
  match parseInput st.inputFormat st.inputData with
  | .ok v => serializeOutput st.outputFormat v
  | .error e => .error e

/-- `validateAndConvert` (source lines 32-81) as a state transition: blank
input is refused with a warning before anything else runs; otherwise the
pipeline's result is stored (success: output text, no error; failure: error
message, output cleared). `isConverting` is reset by the `finally` block. -/
def validateAndConvert (st : ConverterState) : ConverterState :=
  if jsTrim st.inputData = "" then
    { st with error := some ⟨"Please enter some data to convert", .warning⟩ }
  else
    match convertPipeline st with
    | .ok out => { st with isConverting := false, error := none, outputData := out }
    | .error msg => { st with isConverting := false, error := some ⟨msg, .error⟩, outputData := "" }

/-! ## Quote-freedom predicate (for the implicit claim about `parseCSV`) -/

/-- A string containing no double-quote character. -/
def strNoQuotes (s : String) : Bool :=
  s.data.all (fun c => c ≠ '"')

mutual

/-- No double-quote character occurs in any string or object key of the
value. -/
def valueNoQuotes : Value → Bool
  | .str s => strNoQuotes s
  | .arr items => itemsNoQuotes items
  | .obj fields => fieldsNoQuotes fields
  | _ => true

/-- `valueNoQuotes` on every element. -/
def itemsNoQuotes : List Value → Bool
  | [] => true
  | x :: xs => valueNoQuotes x && itemsNoQuotes xs

/-- `valueNoQuotes` on every field value, and no quote in any key. -/
def fieldsNoQuotes : List (String × Value) → Bool
  | [] => true
  | (k, v) :: fs => strNoQuotes k && valueNoQuotes v && fieldsNoQuotes fs

end

/-! ## Helper lemmas -/

theorem objectToXmlItems_eq (items : List Value) :
    objectToXmlItems items = items.map (fun it => "<item>" ++ objectToXml it ++ "</item>") := by
  induction items with
  | nil => simp [objectToXmlItems]
  | cons x xs ih => simp [objectToXmlItems, ih]

theorem objectToXmlFields_eq (fields : List (String × Value)) :
    objectToXmlFields fields =
      fields.map (fun f => "<" ++ f.1 ++ ">" ++ objectToXml f.2 ++ "</" ++ f.1 ++ ">") := by
  induction fields with
  | nil => simp [objectToXmlFields]
  | cons f fs ih => obtain ⟨k, v⟩ := f; simp [objectToXmlFields, ih]

theorem setKey_fresh (acc : List (String × Value)) (k : String) (v : Value)
    (h : ∀ p ∈ acc, p.1 ≠ k) : setKey acc k v = acc ++ [(k, v)] := by
  induction acc with
  | nil => simp [setKey]
  | cons q rest ih =>
    obtain ⟨k0, v0⟩ := q
    have hne : k0 ≠ k := h (k0, v0) (by simp)
    simp [setKey, hne]
    exact ih (fun p hp => h p (by simp [hp]))

theorem foldl_setKey_str_fresh (ps : List (String × String)) (acc : List (String × Value))
    (hnd : (ps.map Prod.fst).Nodup)
    (hfr : ∀ p ∈ ps, ∀ q ∈ acc, q.1 ≠ p.1) :
    ps.foldl (fun a p => setKey a p.1 (Value.str p.2)) acc =
      acc ++ ps.map (fun p => (p.1, Value.str p.2)) := by
  induction ps generalizing acc with
  | nil => simp
  | cons p rest ih =>
    obtain ⟨k, v⟩ := p
    have hnd' : (rest.map Prod.fst).Nodup := by
      rw [List.map_cons] at hnd
      exact hnd.of_cons
    have hknotin : k ∉ rest.map Prod.fst := by
      rw [List.map_cons] at hnd
      exact (List.nodup_cons.mp hnd).1
    have hfr' : ∀ p ∈ rest, ∀ q ∈ acc ++ [(k, Value.str v)], q.1 ≠ p.1 := by
      intro p hp q hq
      rcases List.mem_append.mp hq with hq1 | hq2
      · exact hfr p (List.mem_cons_of_mem _ hp) q hq1
      · have hq3 : q = (k, Value.str v) := by simpa using hq2
        subst hq3
        intro hkp
        have hkp' : k = p.1 := hkp
        exact hknotin (by rw [hkp']; exact List.mem_map_of_mem Prod.fst hp)
    rw [List.foldl_cons, setKey_fresh acc k (Value.str v) (fun q hq => hfr (k, v) (by simp) q hq),
      ih (acc ++ [(k, Value.str v)]) hnd' hfr']
    simp

theorem csvRowObj_eq (headers values : List String) (hnd : headers.Nodup)
    (hlen : headers.length ≤ values.length) :
    csvRowObj headers values =
      Value.obj ((headers.zip values).map (fun p => (p.1, Value.str p.2))) := by
  unfold csvRowObj
  congr 1
  have h1 : ((headers.zip values).map Prod.fst) = headers := List.map_fst_zip headers values hlen
  rw [foldl_setKey_str_fresh (headers.zip values) [] (by rw [h1]; exact hnd) (by simp)]
  simp

theorem csvParseRows_ok (headers : List String) (ls : List String) (i : Nat)
    (h : ∀ l ∈ ls, (jsSplit l ',').length = headers.length) :
    csvParseRows headers ls i =
      .ok (ls.map (fun l => csvRowObj headers ((jsSplit l ',').map cleanCell))) := by
  induction ls generalizing i with
  | nil => simp [csvParseRows]
  | cons l rest ih =>
    have hl : ((jsSplit l ',').map cleanCell).length = headers.length := by
      simpa using h l (by simp)
    rw [csvParseRows]
    simp only [hl, ne_eq, not_true_eq_false, if_false, ite_not]
    rw [ih (i + 1) (fun x hx => h x (by simp [hx]))]
    simp

theorem csvParseRows_err (headers : List String) (ls : List String) (i j : Nat)
    (hj : j < ls.length)
    (hgood : ∀ m, m < j → (jsSplit (ls.getD m "") ',').length = headers.length)
    (hbad : (jsSplit (ls.getD j "") ',').length ≠ headers.length) :
    csvParseRows headers ls i =
      .error ("Row " ++ toString (i + j + 1) ++ " has " ++
        toString (jsSplit (ls.getD j "") ',').length ++ " columns, expected " ++
        toString headers.length) := by
  induction ls generalizing i j with
  | nil => simp at hj
  | cons l rest ih =>
    cases j with
    | zero =>
      have hbad' : ¬ (jsSplit l ',').length = headers.length := by simpa using hbad
      rw [csvParseRows]
      simp [hbad']
    | succ j' =>
      have hgoodhead : (jsSplit l ',').length = headers.length := by
        simpa using hgood 0 (Nat.succ_pos j')
      rw [csvParseRows,
        ih (i + 1) j' (by simpa using hj)
          (fun m hm => by simpa using hgood (m + 1) (by omega))
          (by simpa using hbad)]
      have harith : i + 1 + j' + 1 = i + (j' + 1) + 1 := by omega
      simp [hgoodhead, harith]

theorem cleanCell_noQuotes (s : String) : strNoQuotes (cleanCell s) = true := by
  simp only [strNoQuotes, cleanCell, List.all_eq_true]
  intro c hc
  have := List.mem_filter.mp hc
  simpa using this.2

theorem setKey_noQuotes (acc : List (String × Value)) (k : String) (v : Value)
    (ha : fieldsNoQuotes acc = true) (hk : strNoQuotes k = true)
    (hv : valueNoQuotes v = true) : fieldsNoQuotes (setKey acc k v) = true := by
  induction acc with
  | nil => simp [setKey, fieldsNoQuotes, hk, hv]
  | cons q rest ih =>
    obtain ⟨k0, v0⟩ := q
    rw [fieldsNoQuotes] at ha
    simp only [Bool.and_eq_true] at ha
    by_cases hkk : k0 = k
    · simp only [setKey, hkk, if_true, fieldsNoQuotes, Bool.and_eq_true]
      exact ⟨⟨hk, hv⟩, ha.2⟩
    · simp only [setKey, hkk, if_false, fieldsNoQuotes, Bool.and_eq_true]
      exact ⟨ha.1, ih ha.2⟩

theorem foldl_setKey_noQuotes (ps : List (String × String)) (acc : List (String × Value))
    (hp : ∀ p ∈ ps, strNoQuotes p.1 = true ∧ strNoQuotes p.2 = true)
    (ha : fieldsNoQuotes acc = true) :
    fieldsNoQuotes (ps.foldl (fun a p => setKey a p.1 (Value.str p.2)) acc) = true := by
  induction ps generalizing acc with
  | nil => simpa using ha
  | cons p rest ih =>
    rw [List.foldl_cons]
    refine ih _ (fun q hq => hp q (List.mem_cons_of_mem p hq)) ?_
    have h0 := hp p (by simp)
    exact setKey_noQuotes acc p.1 (Value.str p.2) ha h0.1 (by simpa [valueNoQuotes] using h0.2)

theorem csvRowObj_noQuotes (headers values : List String)
    (hh : ∀ h ∈ headers, strNoQuotes h = true) (hv : ∀ v ∈ values, strNoQuotes v = true) :
    valueNoQuotes (csvRowObj headers values) = true := by
  unfold csvRowObj
  rw [valueNoQuotes]
  refine foldl_setKey_noQuotes (headers.zip values) [] ?_ (by simp [fieldsNoQuotes])
  intro p hp
  obtain ⟨h1, h2⟩ := List.of_mem_zip hp
  exact ⟨hh p.1 h1, hv p.2 h2⟩

theorem csvParseRows_noQuotes (headers : List String)
    (hh : ∀ h ∈ headers, strNoQuotes h = true) (ls : List String) (i : Nat)
    (rows : List Value) (hok : csvParseRows headers ls i = .ok rows) :
    itemsNoQuotes rows = true := by
  induction ls generalizing i rows with
  | nil =>
    rw [csvParseRows] at hok
    obtain rfl : rows = [] := by simpa using hok.symm
    simp [itemsNoQuotes]
  | cons l rest ih =>
    rw [csvParseRows] at hok
    by_cases hlen : (jsSplit l ',').length = headers.length
    · simp only [List.length_map, hlen, ne_eq, not_true_eq_false, if_false] at hok
      cases hrec : csvParseRows headers rest (i + 1) with
      | error e => rw [hrec] at hok; simp at hok
      | ok rs =>
        rw [hrec] at hok
        simp only [Except.ok.injEq] at hok
        subst hok
        rw [itemsNoQuotes, Bool.and_eq_true]
        constructor
        · refine csvRowObj_noQuotes headers _ hh ?_
          intro v hvmem
          obtain ⟨raw, _, rfl⟩ := List.mem_map.mp hvmem
          exact cleanCell_noQuotes raw
        · exact ih (i + 1) rs hrec
    · simp [List.length_map, hlen] at hok

theorem natToDecAux_eq_append (n : Nat) :
    ∀ acc, natToDecAux n acc = natToDecAux n [] ++ acc := by
  induction n using Nat.strong_induction_on with
  | _ n ih =>
    intro acc
    by_cases h : n = 0
    · subst h
      simp [natToDecAux]
    · have hdiv : n / 10 < n := Nat.div_lt_self (Nat.pos_of_ne_zero h) (by omega)
      conv_lhs => rw [natToDecAux]
      conv_rhs => rw [natToDecAux]
      simp only [h, dite_false]
      rw [ih (n / 10) hdiv (Char.ofNat (48 + n % 10) :: acc),
        ih (n / 10) hdiv [Char.ofNat (48 + n % 10)]]
      simp

theorem digit_char_spec (d : Nat) (h : d < 10) :
    (Char.ofNat (48 + d)).isDigit = true ∧ digitVal (Char.ofNat (48 + d)) = d := by
  interval_cases d <;> exact ⟨by decide, by decide⟩

theorem natToDecAux_all_digits (n : Nat) :
    ∀ c ∈ natToDecAux n [], c.isDigit = true := by
  induction n using Nat.strong_induction_on with
  | _ n ih =>
    intro c hc
    by_cases h : n = 0
    · subst h
      simp [natToDecAux] at hc
    · rw [natToDecAux] at hc
      simp only [h, dite_false] at hc
      rw [natToDecAux_eq_append (n / 10)] at hc
      rcases List.mem_append.mp hc with h1 | h2
      · exact ih (n / 10) (Nat.div_lt_self (Nat.pos_of_ne_zero h) (by omega)) c h1
      · have hcd : c = Char.ofNat (48 + n % 10) := by simpa using h2
        subst hcd
        exact (digit_char_spec (n % 10) (by omega)).1

theorem valOfDigits_append_one (ds : List Char) (c : Char) :
    valOfDigits (ds ++ [c]) = 10 * valOfDigits ds + digitVal c := by
  simp [valOfDigits, List.foldl_append]

theorem valOfDigits_natToDecAux (n : Nat) : valOfDigits (natToDecAux n []) = n := by
  induction n using Nat.strong_induction_on with
  | _ n ih =>
    by_cases h : n = 0
    · subst h
      simp [natToDecAux, valOfDigits]
    · rw [natToDecAux]
      simp only [h, dite_false]
      rw [natToDecAux_eq_append (n / 10), valOfDigits_append_one,
        ih (n / 10) (Nat.div_lt_self (Nat.pos_of_ne_zero h) (by omega)),
        (digit_char_spec (n % 10) (by omega)).2]
      omega

theorem natToDec_all_digits (n : Nat) : ∀ c ∈ natToDec n, c.isDigit = true := by
  unfold natToDec
  split_ifs with h
  · intro c hc
    have : c = '0' := by simpa using hc
    subst this
    decide
  · exact natToDecAux_all_digits n

theorem natToDec_ne_nil (n : Nat) : natToDec n ≠ [] := by
  unfold natToDec
  split_ifs with h
  · simp
  · intro hc
    rw [natToDecAux, natToDecAux_eq_append] at hc
    simp [h] at hc

theorem valOfDigits_natToDec (n : Nat) : valOfDigits (natToDec n) = n := by
  unfold natToDec
  split_ifs with h
  · subst h
    simp [valOfDigits, digitVal]
  · exact valOfDigits_natToDecAux n

theorem takeWhile_digits (ds rest : List Char) (hds : ∀ c ∈ ds, c.isDigit = true)
    (hrest : numBoundary rest = true) :
    (ds ++ rest).takeWhile Char.isDigit = ds ∧ (ds ++ rest).dropWhile Char.isDigit = rest := by
  induction ds with
  | nil =>
    simp only [List.nil_append]
    cases rest with
    | nil => simp
    | cons c cs =>
      have hc : c.isDigit = false := by
        have := hrest
        rw [numBoundary] at this
        simpa using this
      simp [List.takeWhile_cons, List.dropWhile_cons, hc]
  | cons d ds' ih =>
    have hd : d.isDigit = true := hds d (by simp)
    obtain ⟨h1, h2⟩ := ih (fun c hc => hds c (by simp [hc]))
    simp [List.takeWhile_cons, List.dropWhile_cons, hd, h1, h2]

theorem parseNatNum_exact (n : Nat) (rest : List Char) (hrest : numBoundary rest = true) :
    parseNatNum (natToDec n ++ rest) = some (n, rest) := by
  obtain ⟨h1, h2⟩ := takeWhile_digits (natToDec n) rest (natToDec_all_digits n) hrest
  unfold parseNatNum
  simp only [h1, h2, natToDec_ne_nil n, if_false, ite_false]
  rw [valOfDigits_natToDec]

theorem parseNumber_intToDec (i : Int) (rest : List Char) (hrest : numBoundary rest = true) :
    parseNumber (intToDecChars i ++ rest) = some (i, rest) := by
  unfold intToDecChars
  split_ifs with hneg
  · rw [List.cons_append]
    simp only [parseNumber, if_true, parseNatNum_exact i.natAbs rest hrest]
    show some (-(i.natAbs : Int), rest) = some (i, rest)
    have : -(i.natAbs : Int) = i := by omega
    rw [this]
  · obtain ⟨c, cs, hcons⟩ : ∃ c cs, natToDec i.natAbs = c :: cs := by
      cases h : natToDec i.natAbs with
      | nil => exact absurd h (natToDec_ne_nil _)
      | cons c cs => exact ⟨c, cs, rfl⟩
    have hcd : c.isDigit = true := natToDec_all_digits _ c (by rw [hcons]; simp)
    have hcne : ¬ c = '-' := by
      intro h
      rw [h] at hcd
      exact absurd hcd (by decide)
    rw [hcons, List.cons_append]
    simp only [parseNumber, hcne, if_false]
    rw [← List.cons_append, ← hcons, parseNatNum_exact i.natAbs rest hrest]
    show some ((i.natAbs : Int), rest) = some (i, rest)
    have : (i.natAbs : Int) = i := by omega
    rw [this]

theorem skipWs_cons_ws (c : Char) (cs : List Char) (h : isWsChar c = true) :
    skipWs (c :: cs) = skipWs cs := by
  simp [skipWs, h]

theorem skipWs_cons_not_ws (c : Char) (cs : List Char) (h : isWsChar c = false) :
    skipWs (c :: cs) = c :: cs := by
  simp [skipWs, h]

theorem skipWs_replicate_space (k : Nat) (cs : List Char) :
    skipWs (List.replicate k ' ' ++ cs) = skipWs cs := by
  induction k with
  | zero => simp
  | succ k ih =>
    rw [List.replicate_succ, List.cons_append, skipWs_cons_ws ' ' _ (by decide)]
    exact ih

theorem skipWs_indent (d : Nat) (cs : List Char) :
    skipWs (indentChars d ++ cs) = skipWs cs :=
  skipWs_replicate_space (2 * d) cs

theorem skipWs_newline_indent (d : Nat) (cs : List Char) :
    skipWs ('\n' :: (indentChars d ++ cs)) = skipWs cs := by
  rw [skipWs_cons_ws '\n' _ (by decide), skipWs_indent]

theorem parseStringBody_escBody (cs rest : List Char) :
    parseStringBody (escBody cs ++ ('"' :: rest)) = some (cs, rest) := by
  induction cs with
  | nil => simp [escBody, parseStringBody]
  | cons c cs' ih =>
    show parseStringBody ((escChar c ++ escBody cs') ++ ('"' :: rest)) = _
    rw [List.append_assoc]
    unfold escChar
    split_ifs with h1 h2 h3 h4 h5 h6 h7
    · subst h1
      simp [parseStringBody, parseEscaped, unescapeChar, ih]
    · subst h2
      simp [parseStringBody, parseEscaped, unescapeChar, ih]
    · subst h3
      simp [parseStringBody, parseEscaped, unescapeChar, ih]
    · subst h4
      simp [parseStringBody, parseEscaped, unescapeChar, ih]
    · subst h5
      simp [parseStringBody, parseEscaped, unescapeChar, ih]
    · subst h6
      simp [parseStringBody, parseEscaped, unescapeChar, ih]
    · subst h7
      simp [parseStringBody, parseEscaped, unescapeChar, ih]
    · simp [parseStringBody, h1, h2, ih]

theorem digit_facts (c : Char) (h : c.isDigit = true) :
    isWsChar c = false ∧ c ≠ ']' ∧ c ≠ '}' ∧ c ≠ ',' ∧ c ≠ '"' ∧ c ≠ '[' ∧ c ≠ '{' ∧
    c ≠ 'n' ∧ c ≠ 't' ∧ c ≠ 'f' ∧ c ≠ '-' := by
  have hws : isWsChar c = false := by
    rcases Bool.eq_false_or_eq_true (isWsChar c) with ht | hf
    · exfalso
      simp only [isWsChar, decide_eq_true_eq] at ht
      rcases ht with rfl | rfl | rfl | rfl <;> exact absurd h (by decide)
    · exact hf
  refine ⟨hws, ?_, ?_, ?_, ?_, ?_, ?_, ?_, ?_, ?_, ?_⟩
  all_goals (intro heq; rw [heq] at h; exact absurd h (by decide))

theorem serVal_head (v : Value) (d : Nat) :
    ∃ c cs, serVal v d = c :: cs ∧ isWsChar c = false ∧ c ≠ ']' ∧ c ≠ '}' ∧ c ≠ ',' := by
  cases v with
  | null => exact ⟨'n', _, rfl, by decide, by decide, by decide, by decide⟩
  | bool b =>
    cases b with
    | true => exact ⟨'t', _, rfl, by decide, by decide, by decide, by decide⟩
    | false => exact ⟨'f', _, rfl, by decide, by decide, by decide, by decide⟩
  | str s => exact ⟨'"', _, rfl, by decide, by decide, by decide, by decide⟩
  | arr items =>
    cases items with
    | nil => exact ⟨'[', _, rfl, by decide, by decide, by decide, by decide⟩
    | cons x xs => exact ⟨'[', _, rfl, by decide, by decide, by decide, by decide⟩
  | obj fields =>
    cases fields with
    | nil => exact ⟨'{', _, rfl, by decide, by decide, by decide, by decide⟩
    | cons f fs =>
      obtain ⟨k, v0⟩ := f
      exact ⟨'{', _, rfl, by decide, by decide, by decide, by decide⟩
  | num i =>
    show ∃ c cs, intToDecChars i = c :: cs ∧ _
    unfold intToDecChars
    split_ifs with hneg
    · exact ⟨'-', _, rfl, by decide, by decide, by decide, by decide⟩
    · obtain ⟨c, cs, hcons⟩ : ∃ c cs, natToDec i.natAbs = c :: cs := by
        cases hh : natToDec i.natAbs with
        | nil => exact absurd hh (natToDec_ne_nil _)
        | cons c cs => exact ⟨c, cs, rfl⟩
      have hcd : c.isDigit = true := natToDec_all_digits _ c (by rw [hcons]; simp)
      obtain ⟨f1, f2, f3, f4, _⟩ := digit_facts c hcd
      exact ⟨c, cs, hcons, f1, f2, f3, f4⟩

theorem serItems_stream (x : Value) (xs : List Value) (dIn dOut : Nat) (rest : List Char) :
    serItems (x :: xs) dIn ++ ('\n' :: (indentChars dOut ++ ']' :: rest)) =
      indentChars dIn ++ (serVal x dIn ++ itemsRest xs dIn dOut rest) := by
  cases xs with
  | nil => simp [serItems, itemsRest]
  | cons y ys => simp [serItems, itemsRest]

theorem serFields_stream (k : String) (v : Value) (fs : List (String × Value))
    (dIn dOut : Nat) (rest : List Char) :
    serFields ((k, v) :: fs) dIn ++ ('\n' :: (indentChars dOut ++ '}' :: rest)) =
      indentChars dIn ++ (escStr k ++ ':' :: ' ' :: (serVal v dIn ++ fieldsRest fs dIn dOut rest)) := by
  cases fs with
  | nil => simp [serFields, fieldsRest]
  | cons g gs => simp [serFields, fieldsRest]

theorem parseValue_congr (fuel : Nat) (cs cs' : List Char) (h : skipWs cs = skipWs cs') :
    parseValue fuel cs = parseValue fuel cs' := by
  cases fuel with
  | zero => rfl
  | succ f =>
    simp only [parseValue]
    rw [h]

theorem parseItems_congr (fuel : Nat) (cs cs' : List Char) (h : skipWs cs = skipWs cs') :
    parseItems fuel cs = parseItems fuel cs' := by
  cases fuel with
  | zero => rfl
  | succ f =>
    simp only [parseItems]
    rw [parseValue_congr f cs cs' h]

theorem parseFields_congr (fuel : Nat) (cs cs' : List Char) (acc : List (String × Value))
    (h : skipWs cs = skipWs cs') :
    parseFields fuel cs acc = parseFields fuel cs' acc := by
  cases fuel with
  | zero => rfl
  | succ f =>
    simp only [parseFields]
    rw [h]

theorem weight_pos (v : Value) : 1 ≤ weight v := by
  cases v <;> (simp only [weight]; omega)

theorem numBoundary_itemsRest (xs : List Value) (dIn dOut : Nat) (rest : List Char) :
    numBoundary (itemsRest xs dIn dOut rest) = true := by
  cases xs <;> simp [itemsRest, numBoundary]

theorem numBoundary_fieldsRest (fs : List (String × Value)) (dIn dOut : Nat) (rest : List Char) :
    numBoundary (fieldsRest fs dIn dOut rest) = true := by
  cases fs <;> simp [fieldsRest, numBoundary]

theorem keyNotIn_spec (k : String) (ks : List String) (h : keyNotIn k ks = true) :
    ∀ s ∈ ks, ¬ s = k := by
  induction ks with
  | nil => simp
  | cons k0 ks' ih =>
    rw [keyNotIn, Bool.and_eq_true] at h
    intro s hs
    rcases List.mem_cons.mp hs with rfl | hs'
    · simpa using h.1
    · exact ih h.2 s hs'

theorem parseValue_succ_quote (m : Nat) (Z : List Char) :
    parseValue (m + 1) ('"' :: Z) =
      (match parseStringBody Z with
       | some (content, rest) => some (.str ⟨content⟩, rest)
       | none => none) := by
  simp [parseValue, skipWs_cons_not_ws '"' Z (by decide)]

theorem parseValue_succ_lbracket (m : Nat) (Z : List Char) :
    parseValue (m + 1) ('[' :: Z) =
      (match skipWs Z with
       | [] => none
       | c2 :: cs2 =>
         if c2 = ']' then some (.arr [], cs2)
         else
           match parseItems m (c2 :: cs2) with
           | some (items, rest) => some (.arr items, rest)
           | none => none) := by
  simp [parseValue, skipWs_cons_not_ws '[' Z (by decide)]

theorem parseValue_succ_lbrace (m : Nat) (Z : List Char) :
    parseValue (m + 1) ('{' :: Z) =
      (match skipWs Z with
       | [] => none
       | c2 :: cs2 =>
         if c2 = '}' then some (.obj [], cs2)
         else
           match parseFields m (c2 :: cs2) [] with
           | some (fields, rest) => some (.obj fields, rest)
           | none => none) := by
  simp [parseValue, skipWs_cons_not_ws '{' Z (by decide)]

theorem parseFields_succ_quote (m : Nat) (Z cs1 : List Char) (acc : List (String × Value))
    (hsw : skipWs Z = '"' :: cs1) :
    parseFields (m + 1) Z acc =
      (match parseStringBody cs1 with
       | none => none
       | some (keyCs, rest) =>
         match skipWs rest with
         | [] => none
         | c2 :: rest1 =>
           if c2 = ':' then
             match parseValue m rest1 with
             | none => none
             | some (v, rest2) =>
               match skipWs rest2 with
               | [] => none
               | c3 :: rest3 =>
                 if c3 = ',' then parseFields m rest3 (setKey acc ⟨keyCs⟩ v)
                 else if c3 = '}' then some (setKey acc ⟨keyCs⟩ v, rest3)
                 else none
           else none) := by
  simp only [parseFields, hsw]
  simp

theorem parseValue_lbracket_cons (m : Nat) (Z : List Char) (c : Char) (cs : List Char)
    (hsw : skipWs Z = c :: cs) (hne : ¬ c = ']') :
    parseValue (m + 1) ('[' :: Z) =
      (match parseItems m (c :: cs) with
       | some (items, rest) => some (.arr items, rest)
       | none => none) := by
  rw [parseValue_succ_lbracket, hsw]
  simp [hne]

theorem parseValue_lbrace_cons (m : Nat) (Z : List Char) (c : Char) (cs : List Char)
    (hsw : skipWs Z = c :: cs) (hne : ¬ c = '}') :
    parseValue (m + 1) ('{' :: Z) =
      (match parseFields m (c :: cs) [] with
       | some (fields, rest) => some (.obj fields, rest)
       | none => none) := by
  rw [parseValue_succ_lbrace, hsw]
  simp [hne]

theorem parse_ser_main (fuel : Nat) :
    (∀ v d rest, canonV v = true → weight v ≤ fuel → numBoundary rest = true →
      parseValue fuel (serVal v d ++ rest) = some (v, rest)) ∧
    (∀ x xs dIn dOut rest, canonItems (x :: xs) = true → weightItems (x :: xs) ≤ fuel →
      parseItems fuel (serVal x dIn ++ itemsRest xs dIn dOut rest) = some (x :: xs, rest)) ∧
    (∀ k v fs acc dIn dOut rest, canonV v = true → canonFields fs = true →
      keysNodup (((k, v) :: fs).map Prod.fst) = true →
      (∀ p ∈ acc, ∀ q ∈ (k, v) :: fs, p.1 ≠ q.1) →
      weightFields ((k, v) :: fs) ≤ fuel →
      parseFields fuel
        (escStr k ++ ':' :: ' ' :: (serVal v dIn ++ fieldsRest fs dIn dOut rest)) acc =
        some (acc ++ (k, v) :: fs, rest)) := by
  induction fuel using Nat.strong_induction_on with
  | _ fuel ih =>
  refine ⟨?_, ?_, ?_⟩
  · intro v d rest hc hw hb
    obtain ⟨m, rfl⟩ : ∃ m, fuel = m + 1 := ⟨fuel - 1, by have := weight_pos v; omega⟩
    cases v with
    | null =>
      show parseValue (m + 1) (['n', 'u', 'l', 'l'] ++ rest) = some (.null, rest)
      simp [parseValue, skipWs, isWsChar, dropLit]
    | bool b =>
      cases b with
      | true =>
        show parseValue (m + 1) (['t', 'r', 'u', 'e'] ++ rest) = some (.bool true, rest)
        simp [parseValue, skipWs, isWsChar, dropLit]
      | false =>
        show parseValue (m + 1) (['f', 'a', 'l', 's', 'e'] ++ rest) = some (.bool false, rest)
        simp [parseValue, skipWs, isWsChar, dropLit]
    | num i =>
      show parseValue (m + 1) (intToDecChars i ++ rest) = some (.num i, rest)
      obtain ⟨c, cs, hcons, hd⟩ :
          ∃ c cs, intToDecChars i = c :: cs ∧ (c = '-' ∨ c.isDigit = true) := by
        unfold intToDecChars
        split_ifs with hneg
        · exact ⟨'-', _, rfl, Or.inl rfl⟩
        · obtain ⟨c, cs, hcons⟩ : ∃ c cs, natToDec i.natAbs = c :: cs := by
            cases hh : natToDec i.natAbs with
            | nil => exact absurd hh (natToDec_ne_nil _)
            | cons c cs => exact ⟨c, cs, rfl⟩
          exact ⟨c, cs, hcons, Or.inr (natToDec_all_digits _ c (by rw [hcons]; simp))⟩
      have hfacts : isWsChar c = false ∧ ¬ c = '"' ∧ ¬ c = '[' ∧ ¬ c = '{' ∧ ¬ c = 'n' ∧
          ¬ c = 't' ∧ ¬ c = 'f' := by
        rcases hd with rfl | hdig
        · exact ⟨by decide, by decide, by decide, by decide, by decide, by decide, by decide⟩
        · obtain ⟨f1, _, _, _, f5, f6, f7, f8, f9, f10, _⟩ := digit_facts c hdig
          exact ⟨f1, f5, f6, f7, f8, f9, f10⟩
      obtain ⟨fws, f1, f2, f3, f4, f5, f6⟩ := hfacts
      rw [hcons, List.cons_append]
      simp only [parseValue, skipWs_cons_not_ws c _ fws]
      rw [if_neg f1, if_neg f2, if_neg f3, if_neg f4, if_neg f5, if_neg f6]
      rw [← List.cons_append, ← hcons, parseNumber_intToDec i rest hb]
    | str s =>
      show parseValue (m + 1) (escStr s ++ rest) = some (.str s, rest)
      rw [show escStr s ++ rest = '"' :: ((escBody s.data ++ ['"']) ++ rest) from rfl,
        parseValue_succ_quote, List.append_assoc, List.singleton_append,
        parseStringBody_escBody]
    | arr items =>
      cases items with
      | nil =>
        show parseValue (m + 1) (['[', ']'] ++ rest) = some (.arr [], rest)
        rw [show (['[', ']'] ++ rest : List Char) = '[' :: (']' :: rest) from rfl,
          parseValue_succ_lbracket, skipWs_cons_not_ws ']' rest (by decide)]
        simp
      | cons x xs =>
        have hbody : serVal (.arr (x :: xs)) d ++ rest =
            '[' :: ('\n' :: (indentChars (d + 1) ++
              (serVal x (d + 1) ++ itemsRest xs (d + 1) d rest))) := by
          show ('[' :: '\n' :: (serItems (x :: xs) (d + 1) ++
            '\n' :: (indentChars d ++ [']']))) ++ rest = _
          rw [List.cons_append, List.cons_append]
          congr 2
          rw [List.append_assoc]
          have heq : ('\n' :: (indentChars d ++ [']'])) ++ rest =
              '\n' :: (indentChars d ++ ']' :: rest) := by simp
          rw [heq, serItems_stream]
        obtain ⟨c, cs, hcons, hws, hrb, _, _⟩ := serVal_head x (d + 1)
        have hsw : skipWs ('\n' :: (indentChars (d + 1) ++
            (serVal x (d + 1) ++ itemsRest xs (d + 1) d rest))) =
            c :: (cs ++ itemsRest xs (d + 1) d rest) := by
          rw [skipWs_newline_indent, hcons, List.cons_append,
            skipWs_cons_not_ws c _ hws]
        rw [hbody, parseValue_lbracket_cons m _ c (cs ++ itemsRest xs (d + 1) d rest) hsw hrb,
          ← List.cons_append, ← hcons]
        have hci : canonItems (x :: xs) = true := by simpa [canonV] using hc
        have hwi : weightItems (x :: xs) ≤ m := by
          simp only [weight] at hw
          omega
        rw [(ih m (by omega)).2.1 x xs (d + 1) d rest hci hwi]
    | obj fields =>
      cases fields with
      | nil =>
        show parseValue (m + 1) (['{', '}'] ++ rest) = some (.obj [], rest)
        rw [show (['{', '}'] ++ rest : List Char) = '{' :: ('}' :: rest) from rfl,
          parseValue_succ_lbrace, skipWs_cons_not_ws '}' rest (by decide)]
        simp
      | cons f fs =>
        obtain ⟨k, v0⟩ := f
        have hbody : serVal (.obj ((k, v0) :: fs)) d ++ rest =
            '{' :: ('\n' :: (indentChars (d + 1) ++
              (escStr k ++ ':' :: ' ' :: (serVal v0 (d + 1) ++ fieldsRest fs (d + 1) d rest)))) := by
          show ('{' :: '\n' :: (serFields ((k, v0) :: fs) (d + 1) ++
            '\n' :: (indentChars d ++ ['}']))) ++ rest = _
          rw [List.cons_append, List.cons_append]
          congr 2
          rw [List.append_assoc]
          have heq : ('\n' :: (indentChars d ++ ['}'])) ++ rest =
              '\n' :: (indentChars d ++ '}' :: rest) := by simp
          rw [heq, serFields_stream]
        have hsw : skipWs ('\n' :: (indentChars (d + 1) ++
            (escStr k ++ ':' :: ' ' :: (serVal v0 (d + 1) ++ fieldsRest fs (d + 1) d rest)))) =
            '"' :: ((escBody k.data ++ ['"']) ++
              (':' :: ' ' :: (serVal v0 (d + 1) ++ fieldsRest fs (d + 1) d rest))) := by
          rw [skipWs_newline_indent]
          rw [show escStr k ++ ':' :: ' ' :: (serVal v0 (d + 1) ++ fieldsRest fs (d + 1) d rest) =
            '"' :: ((escBody k.data ++ ['"']) ++
              (':' :: ' ' :: (serVal v0 (d + 1) ++ fieldsRest fs (d + 1) d rest))) from rfl]
          rw [skipWs_cons_not_ws '"' _ (by decide)]
        rw [hbody, parseValue_lbrace_cons m _ '"'
          ((escBody k.data ++ ['"']) ++
            (':' :: ' ' :: (serVal v0 (d + 1) ++ fieldsRest fs (d + 1) d rest))) hsw (by decide)]
        have hcparts : keysNodup (((k, v0) :: fs).map Prod.fst) = true ∧
            canonV v0 = true ∧ canonFields fs = true := by
          rw [canonV, Bool.and_eq_true, canonFields, Bool.and_eq_true] at hc
          exact ⟨hc.1, hc.2.1, hc.2.2⟩
        have hwf : weightFields ((k, v0) :: fs) ≤ m := by
          simp only [weight] at hw
          omega
        have happ := (ih m (by omega)).2.2 k v0 fs [] (d + 1) d rest hcparts.2.1 hcparts.2.2
          hcparts.1 (by simp) hwf
        rw [show ((escBody k.data ++ ['"']) ++
            (':' :: ' ' :: (serVal v0 (d + 1) ++ fieldsRest fs (d + 1) d rest))) =
          (escBody k.data ++ ['"']) ++
            (':' :: ' ' :: (serVal v0 (d + 1) ++ fieldsRest fs (d + 1) d rest)) from rfl]
        rw [show ('"' :: ((escBody k.data ++ ['"']) ++
            (':' :: ' ' :: (serVal v0 (d + 1) ++ fieldsRest fs (d + 1) d rest)))) =
          escStr k ++ ':' :: ' ' :: (serVal v0 (d + 1) ++ fieldsRest fs (d + 1) d rest) from by
            simp [escStr]]
        rw [happ]
        simp
  · intro x xs dIn dOut rest hci hwi
    obtain ⟨m, rfl⟩ : ∃ m, fuel = m + 1 :=
      ⟨fuel - 1, by simp only [weightItems] at hwi; have := weight_pos x; omega⟩
    have hcx : canonV x = true ∧ canonItems xs = true := by
      simpa [canonItems, Bool.and_eq_true] using hci
    have hwx : weight x ≤ m := by
      simp only [weightItems] at hwi
      have := weight_pos x
      omega
    simp only [parseItems]
    rw [(ih m (by omega)).1 x dIn (itemsRest xs dIn dOut rest) hcx.1 hwx
      (numBoundary_itemsRest xs dIn dOut rest)]
    cases xs with
    | nil =>
      have hsw : skipWs (itemsRest ([] : List Value) dIn dOut rest) = ']' :: rest := by
        simp only [itemsRest]
        rw [skipWs_newline_indent, skipWs_cons_not_ws ']' rest (by decide)]
      simp [hsw]
    | cons y ys =>
      have hsw : skipWs (itemsRest (y :: ys) dIn dOut rest) =
          ',' :: ('\n' :: (serItems (y :: ys) dIn ++ '\n' :: (indentChars dOut ++ ']' :: rest))) := by
        simp only [itemsRest]
        rw [skipWs_cons_not_ws ',' _ (by decide)]
      have hsw2 : skipWs ('\n' :: (serItems (y :: ys) dIn ++
          '\n' :: (indentChars dOut ++ ']' :: rest))) =
          skipWs (serVal y dIn ++ itemsRest ys dIn dOut rest) := by
        rw [skipWs_cons_ws '\n' _ (by decide), serItems_stream, skipWs_indent]
      have hwy : weightItems (y :: ys) ≤ m := by
        simp only [weightItems] at hwi ⊢
        have := weight_pos x
        omega
      have hnext : parseItems m ('\n' :: (serItems (y :: ys) dIn ++
          '\n' :: (indentChars dOut ++ ']' :: rest))) = some (y :: ys, rest) := by
        rw [parseItems_congr m _ _ hsw2]
        exact (ih m (by omega)).2.1 y ys dIn dOut rest hcx.2 hwy
      simp [hsw, hnext]
  · intro k v fs acc dIn dOut rest hcv hcf hknd hfr hwf
    obtain ⟨m, rfl⟩ : ∃ m, fuel = m + 1 :=
      ⟨fuel - 1, by simp only [weightFields] at hwf; have := weight_pos v; omega⟩
    have hswq : skipWs (escStr k ++ ':' :: ' ' :: (serVal v dIn ++ fieldsRest fs dIn dOut rest)) =
        '"' :: ((escBody k.data ++ ['"']) ++
          (':' :: ' ' :: (serVal v dIn ++ fieldsRest fs dIn dOut rest))) := by
      rw [show escStr k ++ ':' :: ' ' :: (serVal v dIn ++ fieldsRest fs dIn dOut rest) =
        '"' :: ((escBody k.data ++ ['"']) ++
          (':' :: ' ' :: (serVal v dIn ++ fieldsRest fs dIn dOut rest))) from rfl]
      rw [skipWs_cons_not_ws '"' _ (by decide)]
    rw [parseFields_succ_quote m _ _ acc hswq]
    rw [show ((escBody k.data ++ ['"']) ++
        (':' :: ' ' :: (serVal v dIn ++ fieldsRest fs dIn dOut rest))) =
      escBody k.data ++ ('"' :: (':' :: ' ' :: (serVal v dIn ++ fieldsRest fs dIn dOut rest)))
      from by simp]
    rw [parseStringBody_escBody]
    have hkeq : (⟨k.data⟩ : String) = k := rfl
    have hvw : weight v ≤ m := by
      simp only [weightFields] at hwf
      have := weight_pos v
      omega
    have hval : parseValue m (' ' :: (serVal v dIn ++ fieldsRest fs dIn dOut rest)) =
        some (v, fieldsRest fs dIn dOut rest) := by
      rw [parseValue_congr m _ (serVal v dIn ++ fieldsRest fs dIn dOut rest)
        (skipWs_cons_ws ' ' _ (by decide))]
      exact (ih m (by omega)).1 v dIn (fieldsRest fs dIn dOut rest) hcv hvw
        (numBoundary_fieldsRest fs dIn dOut rest)
    have hsetk : setKey acc k v = acc ++ [(k, v)] :=
      setKey_fresh acc k v (fun p hp => hfr p hp (k, v) (by simp))
    cases fs with
    | nil =>
      have hswf : skipWs (fieldsRest ([] : List (String × Value)) dIn dOut rest) =
          '}' :: rest := by
        simp only [fieldsRest]
        rw [skipWs_newline_indent, skipWs_cons_not_ws '}' rest (by decide)]
      simp [hval, hswf, hkeq, hsetk, skipWs, isWsChar, skipWs_indent, skipWs_newline_indent]
    | cons g gs =>
      obtain ⟨k2, v2⟩ := g
      have hswf : skipWs (fieldsRest ((k2, v2) :: gs) dIn dOut rest) =
          ',' :: ('\n' :: (serFields ((k2, v2) :: gs) dIn ++
            '\n' :: (indentChars dOut ++ '}' :: rest))) := by
        simp only [fieldsRest]
        rw [skipWs_cons_not_ws ',' _ (by decide)]
      have hsw3 : skipWs ('\n' :: (serFields ((k2, v2) :: gs) dIn ++
          '\n' :: (indentChars dOut ++ '}' :: rest))) =
          skipWs (escStr k2 ++ ':' :: ' ' :: (serVal v2 dIn ++ fieldsRest gs dIn dOut rest)) := by
        rw [skipWs_cons_ws '\n' _ (by decide), serFields_stream, skipWs_indent]
      have hcf2 : canonV v2 = true ∧ canonFields gs = true := by
        rw [canonFields, Bool.and_eq_true] at hcf
        exact hcf
      have hknd2 : keysNodup (((k2, v2) :: gs).map Prod.fst) = true := by
        rw [List.map_cons, keysNodup, Bool.and_eq_true] at hknd
        exact hknd.2
      have hkni : keyNotIn k (((k2, v2) :: gs).map Prod.fst) = true := by
        rw [List.map_cons, keysNodup, Bool.and_eq_true] at hknd
        exact hknd.1
      have hfr2 : ∀ p ∈ acc ++ [(k, v)], ∀ q ∈ (k2, v2) :: gs, p.1 ≠ q.1 := by
        intro p hp q hq
        rcases List.mem_append.mp hp with hp1 | hp2
        · exact hfr p hp1 q (List.mem_cons_of_mem _ hq)
        · have hpk : p = (k, v) := by simpa using hp2
          subst hpk
          have : ¬ q.1 = k :=
            keyNotIn_spec k _ hkni q.1 (List.mem_map_of_mem Prod.fst hq)
          exact fun hcontra => this (hcontra ▸ rfl)
      have hwf2 : weightFields ((k2, v2) :: gs) ≤ m := by
        simp only [weightFields] at hwf ⊢
        have := weight_pos v
        omega
      have hnext : parseFields m ('\n' :: (serFields ((k2, v2) :: gs) dIn ++
          '\n' :: (indentChars dOut ++ '}' :: rest))) (acc ++ [(k, v)]) =
          some ((acc ++ [(k, v)]) ++ (k2, v2) :: gs, rest) := by
        rw [parseFields_congr m _ _ _ hsw3]
        exact (ih m (by omega)).2.2 k2 v2 gs (acc ++ [(k, v)]) dIn dOut rest
          hcf2.1 hcf2.2 hknd2 hfr2 hwf2
      simp [hval, hswf, hkeq, hsetk, hnext, skipWs, isWsChar, skipWs_indent,
        skipWs_newline_indent]

theorem intToDecChars_ne_nil (i : Int) : intToDecChars i ≠ [] := by
  unfold intToDecChars
  split_ifs
  · simp
  · exact natToDec_ne_nil _

theorem weight_le_len (n : Nat) :
    (∀ v, weight v ≤ n → ∀ d, weight v ≤ (serVal v d).length) ∧
    (∀ x xs, weightItems (x :: xs) ≤ n → ∀ d,
      weightItems (x :: xs) ≤ (serItems (x :: xs) d).length + 3) ∧
    (∀ k v fs, weightFields ((k, v) :: fs) ≤ n → ∀ d,
      weightFields ((k, v) :: fs) ≤ (serFields ((k, v) :: fs) d).length + 3) := by
  induction n using Nat.strong_induction_on with
  | _ n ih =>
  refine ⟨?_, ?_, ?_⟩
  · intro v hw d
    cases v with
    | null => simp [weight, serVal]
    | bool b => cases b <;> simp [weight, serVal]
    | num i =>
      simp only [weight, serVal]
      have hne := List.length_pos.mpr (intToDecChars_ne_nil i)
      omega
    | str s =>
      simp only [weight, serVal, escStr, List.length_cons]
      omega
    | arr items =>
      cases items with
      | nil => simp [weight, weightItems, serVal]
      | cons x xs =>
        simp only [weight] at hw ⊢
        have hn1 : 1 ≤ n := by
          have := weight_pos x
          simp only [weightItems] at hw
          omega
        have hitems := (ih (n - 1) (by omega)).2.1 x xs (by omega) (d + 1)
        simp only [serVal, List.length_cons, List.length_append]
        omega
    | obj fields =>
      cases fields with
      | nil => simp [weight, weightFields, serVal]
      | cons f fs =>
        obtain ⟨k, v0⟩ := f
        simp only [weight] at hw ⊢
        have hn1 : 1 ≤ n := by
          have := weight_pos v0
          simp only [weightFields] at hw
          omega
        have hfields := (ih (n - 1) (by omega)).2.2 k v0 fs (by omega) (d + 1)
        simp only [serVal, List.length_cons, List.length_append]
        omega
  · intro x xs hwi d
    cases xs with
    | nil =>
      have hx := (ih (weight x) (by
        simp only [weightItems] at hwi
        omega)).1 x le_rfl d
      simp only [weightItems] at hwi ⊢
      simp only [serItems, List.length_append]
      omega
    | cons y ys =>
      rw [weightItems] at hwi ⊢
      have hxlt : weight x < n := by omega
      have hyslt : weightItems (y :: ys) < n := by
        have := weight_pos x
        omega
      have hx := (ih (weight x) hxlt).1 x le_rfl d
      have hys := (ih (weightItems (y :: ys)) hyslt).2.1 y ys le_rfl d
      have hlen : (serItems (x :: y :: ys) d).length =
          (indentChars d).length + (serVal x d).length + (serItems (y :: ys) d).length + 2 := by
        simp only [serItems, List.length_append, List.length_cons]
        omega
      omega
  · intro k v fs hwf d
    cases fs with
    | nil =>
      have hv := (ih (weight v) (by
        simp only [weightFields] at hwf
        omega)).1 v le_rfl d
      simp only [weightFields] at hwf ⊢
      simp only [serFields, List.length_append, List.length_cons]
      omega
    | cons g gs =>
      obtain ⟨k2, v2⟩ := g
      rw [weightFields] at hwf ⊢
      have hvlt : weight v < n := by omega
      have hgslt : weightFields ((k2, v2) :: gs) < n := by
        have := weight_pos v
        omega
      have hv := (ih (weight v) hvlt).1 v le_rfl d
      have hgs := (ih (weightFields ((k2, v2) :: gs)) hgslt).2.2 k2 v2 gs le_rfl d
      have hlen : (serFields ((k, v) :: (k2, v2) :: gs) d).length =
          (indentChars d).length + (escStr k).length + (serVal v d).length +
            (serFields ((k2, v2) :: gs) d).length + 4 := by
        simp only [serFields, List.length_append, List.length_cons]
        omega
      omega

theorem weight_le_serVal (v : Value) (d : Nat) : weight v ≤ (serVal v d).length :=
  (weight_le_len (weight v)).1 v le_rfl d

theorem keyNotIn_setKey (a : String) (rest : List (String × Value)) (k : String) (v : Value)
    (h1 : keyNotIn a (rest.map Prod.fst) = true) (h2 : ¬ a = k) :
    keyNotIn a ((setKey rest k v).map Prod.fst) = true := by
  induction rest with
  | nil =>
    simp [setKey, keyNotIn]
    exact fun hk => h2 hk.symm
  | cons p rest' ih =>
    obtain ⟨k0, v0⟩ := p
    rw [List.map_cons, keyNotIn, Bool.and_eq_true] at h1
    by_cases hk : k0 = k
    · subst hk
      simp only [setKey, if_pos rfl, List.map_cons, keyNotIn, Bool.and_eq_true]
      exact ⟨h1.1, h1.2⟩
    · simp only [setKey, hk, if_false, List.map_cons, keyNotIn, Bool.and_eq_true]
      exact ⟨h1.1, ih h1.2⟩

theorem setKey_keysNodup (acc : List (String × Value)) (k : String) (v : Value)
    (h : keysNodup (acc.map Prod.fst) = true) :
    keysNodup ((setKey acc k v).map Prod.fst) = true := by
  induction acc with
  | nil => simp [setKey, keysNodup, keyNotIn]
  | cons p rest ih =>
    obtain ⟨k0, v0⟩ := p
    rw [List.map_cons, keysNodup, Bool.and_eq_true] at h
    by_cases hk : k0 = k
    · subst hk
      simp only [setKey, if_pos rfl, List.map_cons, keysNodup, Bool.and_eq_true]
      exact ⟨h.1, h.2⟩
    · simp only [setKey, hk, if_false, List.map_cons, keysNodup, Bool.and_eq_true]
      exact ⟨keyNotIn_setKey k0 rest k v h.1 hk, ih h.2⟩

theorem setKey_canonFields (acc : List (String × Value)) (k : String) (v : Value)
    (ha : canonFields acc = true) (hv : canonV v = true) :
    canonFields (setKey acc k v) = true := by
  induction acc with
  | nil => simp [setKey, canonFields, hv]
  | cons p rest ih =>
    obtain ⟨k0, v0⟩ := p
    rw [canonFields, Bool.and_eq_true] at ha
    by_cases hk : k0 = k
    · subst hk
      simp only [setKey, if_pos rfl, canonFields, Bool.and_eq_true]
      exact ⟨hv, ha.2⟩
    · simp only [setKey, hk, if_false, canonFields, Bool.and_eq_true]
      exact ⟨ha.1, ih ha.2⟩

theorem parse_canon (fuel : Nat) :
    (∀ cs v rest, parseValue fuel cs = some (v, rest) → canonV v = true) ∧
    (∀ cs items rest, parseItems fuel cs = some (items, rest) → canonItems items = true) ∧
    (∀ cs acc fields rest, keysNodup (acc.map Prod.fst) = true → canonFields acc = true →
      parseFields fuel cs acc = some (fields, rest) →
      keysNodup (fields.map Prod.fst) = true ∧ canonFields fields = true) := by
  induction fuel with
  | zero =>
    refine ⟨?_, ?_, ?_⟩
    · intro cs v rest h
      simp [parseValue] at h
    · intro cs items rest h
      simp [parseItems] at h
    · intro cs acc fields rest hnd hcf h
      simp [parseFields] at h
  | succ f ih =>
    refine ⟨?_, ?_, ?_⟩
    · intro cs v rest h
      simp only [parseValue] at h
      split at h
      · simp at h
      · split_ifs at h
        · split at h
          · simp only [Option.some.injEq, Prod.mk.injEq] at h
            obtain ⟨rfl, rfl⟩ := h
            simp [canonV]
          · simp at h
        · split at h
          · simp at h
          · split_ifs at h
            · simp only [Option.some.injEq, Prod.mk.injEq] at h
              obtain ⟨rfl, rfl⟩ := h
              simp [canonV, canonItems]
            · split at h
              · rename_i items r hpi
                simp only [Option.some.injEq, Prod.mk.injEq] at h
                obtain ⟨rfl, rfl⟩ := h
                simp only [canonV]
                exact ih.2.1 _ _ _ hpi
              · simp at h
        · split at h
          · simp at h
          · split_ifs at h
            · simp only [Option.some.injEq, Prod.mk.injEq] at h
              obtain ⟨rfl, rfl⟩ := h
              simp [canonV, keysNodup, canonFields]
            · split at h
              · rename_i fields r hpf
                simp only [Option.some.injEq, Prod.mk.injEq] at h
                obtain ⟨rfl, rfl⟩ := h
                have := ih.2.2 _ [] _ _ (by simp [keysNodup]) (by simp [canonFields]) hpf
                simp only [canonV, Bool.and_eq_true]
                exact this
              · simp at h
        · split at h
          · simp only [Option.some.injEq, Prod.mk.injEq] at h
            obtain ⟨rfl, rfl⟩ := h
            simp [canonV]
          · simp at h
        · split at h
          · simp only [Option.some.injEq, Prod.mk.injEq] at h
            obtain ⟨rfl, rfl⟩ := h
            simp [canonV]
          · simp at h
        · split at h
          · simp only [Option.some.injEq, Prod.mk.injEq] at h
            obtain ⟨rfl, rfl⟩ := h
            simp [canonV]
          · simp at h
        · split at h
          · simp only [Option.some.injEq, Prod.mk.injEq] at h
            obtain ⟨rfl, rfl⟩ := h
            simp [canonV]
          · simp at h
    · intro cs items rest h
      simp only [parseItems] at h
      split at h
      · simp at h
      · rename_i v r hpv
        have hcv := ih.1 _ _ _ hpv
        split at h
        · simp at h
        · split_ifs at h
          · split at h
            · rename_i vs r2 hpi
              simp only [Option.some.injEq, Prod.mk.injEq] at h
              obtain ⟨rfl, rfl⟩ := h
              simp only [canonItems, Bool.and_eq_true]
              exact ⟨hcv, ih.2.1 _ _ _ hpi⟩
            · simp at h
          · simp only [Option.some.injEq, Prod.mk.injEq] at h
            obtain ⟨rfl, rfl⟩ := h
            simp [canonItems, hcv]
    · intro cs acc fields rest hnd hcf h
      simp only [parseFields] at h
      split at h
      · simp at h
      · split_ifs at h
        · split at h
          · simp at h
          · rename_i keyCs r hsb
            split at h
            · simp at h
            · split_ifs at h
              · split at h
                · simp at h
                · rename_i v r2 hpv
                  have hcv := ih.1 _ _ _ hpv
                  split at h
                  · simp at h
                  · split_ifs at h
                    · exact ih.2.2 _ _ _ _ (setKey_keysNodup acc _ v hnd)
                        (setKey_canonFields acc _ v hcf hcv) h
                    · simp only [Option.some.injEq, Prod.mk.injEq] at h
                      obtain ⟨rfl, rfl⟩ := h
                      exact ⟨setKey_keysNodup acc _ v hnd,
                        setKey_canonFields acc _ v hcf hcv⟩

theorem parseJSON_canon (t : String) (v : Value) (h : parseJSON t = some v) :
    canonV v = true := by
  unfold parseJSON at h
  cases hpv : parseValue (2 * t.length + 2) t.data with
  | none => rw [hpv] at h; simp at h
  | some pr =>
    obtain ⟨v0, rest⟩ := pr
    rw [hpv] at h
    by_cases hr : skipWs rest = []
    · simp only [hr, if_true] at h
      obtain rfl : v0 = v := by simpa using h
      exact (parse_canon _).1 t.data v0 rest hpv
    · simp [hr] at h

theorem parseJSON_of_canon (v : Value) (hc : canonV v = true) :
    parseJSON (toJSON v) = some v := by
  unfold parseJSON toJSON
  have hw : weight v ≤ 2 * (serVal v 0).length + 2 := by
    have := weight_le_serVal v 0
    omega
  have hmain := (parse_ser_main (2 * (serVal v 0).length + 2)).1 v 0 [] hc hw
    (by simp [numBoundary])
  rw [List.append_nil] at hmain
  show (match parseValue (2 * (serVal v 0).length + 2) (serVal v 0) with
    | some (v, rest) => if skipWs rest = [] then some v else none
    | none => none) = some v
  rw [hmain]
  simp [skipWs]

theorem except_bind_ok {α β : Type} (a : α) (f : α → Except String β) :
    (Except.ok a >>= f : Except String β) = f a := rfl

theorem except_pure {α : Type} (a : α) : (pure a : Except String α) = Except.ok a := rfl

theorem csvCells_obj (fields : List (String × Value)) (headers : List String) :
    csvCells (Value.obj fields) headers =
      .ok (headers.map (fun hd => "\"" ++ jsToString (jsOrEmpty (getKey fields hd)) ++ "\"")) := by
  induction headers with
  | nil => simp [csvCells]
  | cons h hs ih => simp [csvCells, csvCell, jsGetE, ih, except_bind_ok, except_pure]

theorem csvLines_obj (headers : List String) (rows : List (List (String × Value))) :
    csvLines headers (rows.map Value.obj) =
      .ok (rows.map (fun fields => String.intercalate ","
        (headers.map (fun hd => "\"" ++ jsToString (jsOrEmpty (getKey fields hd)) ++ "\"")))) := by
  induction rows with
  | nil => simp [csvLines]
  | cons fs rest ih =>
    simp [csvLines, csvLine, csvCells_obj, ih, except_bind_ok, except_pure]

/-! ## Claim theorems -/

/-- C1: for every text that parses as valid JSON, parsing and then
serializing with `toJSON` produces text whose parse is structurally equal
to the original parse (round trip through the generic value). -/
theorem parseJSON_toJSON_roundtrip (t : String) (v : Value) (h : parseJSON t = some v) :
    parseJSON (toJSON v) = some v :=
  parseJSON_of_canon v (parseJSON_canon t v h)

theorem parseJSON_toJSON_roundtrip_witness :
    parseJSON "\x7b\"a\": [1, null], \"b\": \"x\"\x7d" =
      some (Value.obj [("a", Value.arr [Value.num 1, Value.null]), ("b", Value.str "x")]) ∧
    parseJSON (toJSON (Value.obj [("a", Value.arr [Value.num 1, Value.null]),
        ("b", Value.str "x")])) =
      some (Value.obj [("a", Value.arr [Value.num 1, Value.null]), ("b", Value.str "x")]) := by
  have h : parseJSON "\x7b\"a\": [1, null], \"b\": \"x\"\x7d" =
      some (Value.obj [("a", Value.arr [Value.num 1, Value.null]), ("b", Value.str "x")]) := by
    simp [parseJSON, parseValue, parseItems, parseFields, parseStringBody, parseEscaped,
      unescapeChar, skipWs, isWsChar, parseNumber, parseNatNum, valOfDigits, digitVal,
      dropLit, setKey, List.takeWhile, List.dropWhile]
  exact ⟨h, parseJSON_toJSON_roundtrip _ _ h⟩

/-- C4: `parseCSV` takes the first line as header (comma-split, trimmed,
quotes stripped) and yields an Array of Objects mapping each header to the
corresponding cleaned cell string of each subsequent line (no type
coercion). -/
theorem parseCSV_spec (s header : String) (dataLines : List String)
    (hsplit : jsSplit (jsTrim s) '\n' = header :: dataLines)
    (hlen : ∀ l ∈ dataLines, (jsSplit l ',').length = (jsSplit header ',').length)
    (hnd : ((jsSplit header ',').map cleanCell).Nodup) :
    parseCSV s = .ok (Value.arr (dataLines.map (fun l =>
      Value.obj ((((jsSplit header ',').map cleanCell).zip ((jsSplit l ',').map cleanCell)).map
        (fun p => (p.1, Value.str p.2)))))) := by
  have hlen' : ∀ l ∈ dataLines,
      (jsSplit l ',').length = ((jsSplit header ',').map cleanCell).length := by
    intro l hl
    simpa using hlen l hl
  unfold parseCSV
  rw [hsplit]
  show (csvParseRows ((jsSplit header ',').map cleanCell) dataLines 1).map Value.arr = _
  rw [csvParseRows_ok ((jsSplit header ',').map cleanCell) dataLines 1 hlen']
  simp only [Except.map]
  congr 1
  congr 1
  refine List.map_congr_left ?_
  intro l hl
  exact csvRowObj_eq _ _ hnd (by simp [hlen l hl])

theorem parseCSV_spec_witness :
    parseCSV "a,b\n1,2" =
      .ok (Value.arr [Value.obj [("a", Value.str "1"), ("b", Value.str "2")]]) := by
  have h := parseCSV_spec "a,b\n1,2" "a,b" ["1,2"] (by rfl)
    (by intro l hl; simp at hl; subst hl; rfl) (by decide)
  rw [h]
  rfl

/-- C3: a CSV input whose first mismatching data line has a field count
different from the header's fails with an error naming the 1-based row
index (the header is row 1, so data line `j` is row `j + 2`) and the actual
and expected column counts. -/
theorem parseCSV_row_count_error (s header : String) (dataLines : List String) (j : Nat)
    (hsplit : jsSplit (jsTrim s) '\n' = header :: dataLines)
    (hj : j < dataLines.length)
    (hgood : ∀ m, m < j →
      (jsSplit (dataLines.getD m "") ',').length = (jsSplit header ',').length)
    (hbad : (jsSplit (dataLines.getD j "") ',').length ≠ (jsSplit header ',').length) :
    parseCSV s = .error ("Row " ++ toString (j + 2) ++ " has " ++
      toString (jsSplit (dataLines.getD j "") ',').length ++ " columns, expected " ++
      toString (jsSplit header ',').length) := by
  have hexp : ((jsSplit header ',').map cleanCell).length = (jsSplit header ',').length := by
    simp
  unfold parseCSV
  rw [hsplit]
  show (csvParseRows ((jsSplit header ',').map cleanCell) dataLines 1).map Value.arr = _
  rw [csvParseRows_err ((jsSplit header ',').map cleanCell) dataLines 1 j hj
    (fun m hm => by rw [hexp]; exact hgood m hm) (by rw [hexp]; exact hbad)]
  have harith : 1 + j + 1 = j + 2 := by omega
  rw [hexp, harith]
  rfl

theorem parseCSV_row_count_error_witness :
    parseCSV "a,b\nx" = .error "Row 2 has 1 columns, expected 2" := by
  have h := parseCSV_row_count_error "a,b\nx" "a,b" ["x"] 0 (by rfl) (by decide)
    (fun m hm => absurd hm (Nat.not_lt_zero m)) (by decide)
  rw [h]
  rfl

/-- C6: for a non-empty array of objects, `toCSV` emits the first element's
keys as the header row, then one row per element re-emitting the header
keys' values with every cell double-quoted, a missing or falsy cell
serializing as `""` and later elements' extra keys being ignored. -/
theorem convertToCSV_header_and_rows :
    (∀ (fs0 : List (String × Value)) (rest : List (List (String × Value))),
      convertToCSV (Value.arr (Value.obj fs0 :: rest.map Value.obj)) =
        .ok (String.intercalate "\n" (String.intercalate "," (fs0.map Prod.fst) ::
          (fs0 :: rest).map (fun fields => String.intercalate ","
            ((fs0.map Prod.fst).map (fun hd =>
              "\"" ++ jsToString (jsOrEmpty (getKey fields hd)) ++ "\"")))))) ∧
    convertToCSV (Value.arr [Value.obj [("a", Value.str "1"), ("b", Value.str "2")]]) =
      .ok "a,b\n\"1\",\"2\"" ∧
    convertToCSV (Value.arr [Value.obj [("a", Value.str "1")], Value.obj []]) =
      .ok "a\n\"1\"\n\"\"" ∧
    convertToCSV (Value.arr [Value.obj [("a", Value.str "")]]) = .ok "a\n\"\"" ∧
    convertToCSV (Value.arr [Value.obj [("a", Value.str "1")],
      Value.obj [("a", Value.str "2"), ("b", Value.str "3")]]) = .ok "a\n\"1\"\n\"2\"" := by
  refine ⟨fun fs0 rest => ?_, ?_, ?_, ?_, ?_⟩
  · have hmap : Value.obj fs0 :: rest.map Value.obj = (fs0 :: rest).map Value.obj := rfl
    rw [convertToCSV, hmap]
    simp only [jsKeysE, except_bind_ok]
    rw [csvLines_obj]
    simp [except_bind_ok, except_pure]
  · simp [convertToCSV, csvLines, csvLine, csvCells, csvCell, jsKeysE, jsGetE, getKey,
      jsOrEmpty, truthy, jsToString, except_bind_ok, except_pure]
    rfl
  · simp [convertToCSV, csvLines, csvLine, csvCells, csvCell, jsKeysE, jsGetE, getKey,
      jsOrEmpty, truthy, jsToString, except_bind_ok, except_pure]
    rfl
  · simp [convertToCSV, csvLines, csvLine, csvCells, csvCell, jsKeysE, jsGetE, getKey,
      jsOrEmpty, truthy, jsToString, except_bind_ok, except_pure]
    rfl
  · simp [convertToCSV, csvLines, csvLine, csvCells, csvCell, jsKeysE, jsGetE, getKey,
      jsOrEmpty, truthy, jsToString, except_bind_ok, except_pure]
    rfl

/-- C10: `parseCSV` deletes every double-quote character occurring anywhere
in a header or cell (after trimming surrounding whitespace): no string in
any successful parse result contains a double quote, and a cell written
`a"b` parses to `ab`. -/
theorem parseCSV_removes_quotes :
    (∀ s out, parseCSV s = .ok out → valueNoQuotes out = true) ∧
    cleanCell "a\"b" = "ab" ∧
    cleanCell " a\"b " = "ab" := by
  refine ⟨?_, by rfl, by rfl⟩
  intro s out hok
  unfold parseCSV at hok
  cases hls : jsSplit (jsTrim s) '\n' with
  | nil => rw [hls] at hok; simp at hok
  | cons header dataLines =>
    rw [hls] at hok
    simp only at hok
    cases hrows : csvParseRows ((jsSplit header ',').map cleanCell) dataLines 1 with
    | error e => rw [hrows] at hok; simp [Except.map] at hok
    | ok rows =>
      rw [hrows] at hok
      simp only [Except.map, Except.ok.injEq] at hok
      subst hok
      rw [valueNoQuotes]
      refine csvParseRows_noQuotes _ ?_ dataLines 1 rows hrows
      intro h hmem
      obtain ⟨raw, _, rfl⟩ := List.mem_map.mp hmem
      exact cleanCell_noQuotes raw

theorem parseCSV_removes_quotes_witness :
    valueNoQuotes (Value.arr [Value.obj [("a", Value.str "1"), ("b", Value.str "2")]]) = true ∧
    cleanCell "a\"b" = "ab" :=
  ⟨parseCSV_removes_quotes.1 "a,b\n1,2"
      (Value.arr [Value.obj [("a", Value.str "1"), ("b", Value.str "2")]])
      (by simp [parseCSV, csvParseRows, csvRowObj, jsSplit, splitChar, jsTrim, isJsWs,
        cleanCell, setKey, Except.map]),
    parseCSV_removes_quotes.2.1⟩

/-- C5: `toCSV` fails with a TypeError for every value that is not an
Array, and `toCSV` applied to the empty array returns the empty string. -/
theorem convertToCSV_requires_array :
    (∀ v : Value, (∀ items, v ≠ Value.arr items) →
      convertToCSV v = .error "CSV output requires array data") ∧
    convertToCSV (Value.arr []) = .ok "" := by
  constructor
  · intro v h
    cases v with
    | arr items => exact absurd rfl (h items)
    | null => simp [convertToCSV]
    | bool b => simp [convertToCSV]
    | num n => simp [convertToCSV]
    | str s => simp [convertToCSV]
    | obj fields => simp [convertToCSV]
  · simp [convertToCSV]

theorem convertToCSV_requires_array_witness :
    convertToCSV (Value.str "x") = .error "CSV output requires array data" ∧
    convertToCSV (Value.arr []) = .ok "" :=
  ⟨convertToCSV_requires_array.1 (Value.str "x") (fun _ h => Value.noConfusion h),
   convertToCSV_requires_array.2⟩

/-- C7: `toXML` always emits the XML declaration and a `<root>` wrapper,
and `objectToXml` renders arrays as sibling `<item>` elements, objects as
sibling elements named after each key, and scalars as text content coerced
to string. -/
theorem convertToXML_spec :
    (∀ v : Value, convertToXML v =
      "<?xml version=\"1.0\" encoding=\"UTF-8\"?>\n<root>\n" ++ objectToXml v ++ "\n</root>") ∧
    (∀ items, objectToXml (Value.arr items) =
      String.intercalate "\n" (items.map (fun it => "<item>" ++ objectToXml it ++ "</item>"))) ∧
    (∀ fields, objectToXml (Value.obj fields) =
      String.intercalate "\n"
        (fields.map (fun f => "<" ++ f.1 ++ ">" ++ objectToXml f.2 ++ "</" ++ f.1 ++ ">"))) ∧
    (∀ b, objectToXml (Value.bool b) = jsToString (Value.bool b)) ∧
    (∀ n, objectToXml (Value.num n) = jsToString (Value.num n)) ∧
    (∀ s, objectToXml (Value.str s) = s) ∧
    objectToXml Value.null = "null" := by
  refine ⟨fun v => rfl, fun items => ?_, fun fields => ?_, fun b => ?_, fun n => ?_,
    fun s => ?_, ?_⟩
  · rw [objectToXml, objectToXmlItems_eq]
  · rw [objectToXml, objectToXmlFields_eq]
  · cases b <;> simp [objectToXml, jsToString]
  · simp [objectToXml, jsToString]
  · simp [objectToXml, jsToString]
  · simp [objectToXml, jsToString]

/-- C8: a conversion attempt on blank (empty or whitespace-only) input only
records the fixed warning-level message: the output text and every other
state field are unchanged, and no parse or serialize step runs. -/
theorem validateAndConvert_blank (st : ConverterState) (h : jsTrim st.inputData = "") :
    validateAndConvert st =
      { st with error := some ⟨"Please enter some data to convert", Severity.warning⟩ } := by
  simp [validateAndConvert, h]

theorem validateAndConvert_blank_witness :
    validateAndConvert ⟨" \t ", "prev", .json, .csv, none, false⟩ =
      ⟨" \t ", "prev", .json, .csv,
        some ⟨"Please enter some data to convert", Severity.warning⟩, false⟩ :=
  validateAndConvert_blank ⟨" \t ", "prev", .json, .csv, none, false⟩ (by decide)

/-- C9: past the blank-input guard, a failing parse or serialize step
stores exactly one error-level message and clears the output text, while a
successful pipeline stores the serialized text and no error. -/
theorem validateAndConvert_outcome (st : ConverterState) (h : ¬ jsTrim st.inputData = "") :
    (∀ msg, convertPipeline st = .error msg →
      validateAndConvert st =
        { st with isConverting := false, error := some ⟨msg, Severity.error⟩,
                  outputData := "" }) ∧
    (∀ out, convertPipeline st = .ok out →
      validateAndConvert st =
        { st with isConverting := false, error := none, outputData := out }) := by
  constructor
  · intro msg hmsg
    simp [validateAndConvert, h, hmsg]
  · intro out hout
    simp [validateAndConvert, h, hout]

theorem validateAndConvert_outcome_witness :
    validateAndConvert ⟨"\x7b", "prev", .json, .csv, none, false⟩ =
      ⟨"\x7b", "", .json, .csv,
        some ⟨"Invalid JSON format. Please check your syntax.", Severity.error⟩, false⟩ ∧
    validateAndConvert ⟨"[1]", "prev", .json, .json, none, false⟩ =
      ⟨"[1]", "[\n  1\n]", .json, .json, none, false⟩ := by
  constructor
  · exact (validateAndConvert_outcome ⟨"\x7b", "prev", .json, .csv, none, false⟩
      (by decide)).1 "Invalid JSON format. Please check your syntax."
      (by simp [convertPipeline, parseInput, parseJSON, parseValue, parseFields,
        skipWs, isWsChar])
  · exact (validateAndConvert_outcome ⟨"[1]", "prev", .json, .json, none, false⟩
      (by decide)).2 "[\n  1\n]"
      (by simp [convertPipeline, parseInput, parseJSON, parseValue, parseItems,
        skipWs, isWsChar, parseNumber, parseNatNum, valOfDigits, digitVal,
        serializeOutput, toJSON, serVal, serItems, indentChars, intToDecChars,
        natToDec, natToDecAux])

/-- C2 counterexample: in `<root><a></a><a>2</a></root>` the first `a`
converts to the empty string, which is falsy, so the second `a` overwrites
it instead of forming the two-element array the claim predicts. -/
theorem xmlToObject_falsy_counterexample :
    xmlToObject (.mk "root" "" [.mk "a" "" [], .mk "a" "2" []]) =
      Value.obj [("a", Value.str "2")] ∧
    Value.obj [("a", Value.str "2")] ≠
      Value.obj [("a", Value.arr [Value.str "", Value.str "2"])] := by
  constructor
  · simp [xmlToObject, xmlChildren, insertChild, existingTruthy, truthy, getKey,
      setKey, XElem.tag]
  · simp

/-- C2 amended: a leaf element maps to its text content; a container maps
to an object built by `insertChild`, where a repeated tag collapses into an
array only when the already-stored value is truthy (push if it is an array,
else a two-element array); an absent or falsy stored value is plainly
overwritten. `<root><a>1</a><a>2</a></root>` parses to
`{a: ["1", "2"]}` and a leaf `<x>hi</x>` to `"hi"`. -/
theorem xmlToObject_spec :
    (∀ tag text, xmlToObject (.mk tag text []) = Value.str text) ∧
    (∀ tag text c cs, xmlToObject (.mk tag text (c :: cs)) =
      Value.obj (xmlChildren (c :: cs) [])) ∧
    (∀ acc tag v, getKey acc tag = none → insertChild acc tag v = setKey acc tag v) ∧
    (∀ acc tag v w, getKey acc tag = some w → truthy w = false →
      insertChild acc tag v = setKey acc tag v) ∧
    (∀ acc tag v ws, getKey acc tag = some (Value.arr ws) →
      insertChild acc tag v = setKey acc tag (Value.arr (ws ++ [v]))) ∧
    (∀ acc tag v w, getKey acc tag = some w → truthy w = true → (∀ ws, w ≠ Value.arr ws) →
      insertChild acc tag v = setKey acc tag (Value.arr [w, v])) ∧
    xmlToObject (.mk "root" "" [.mk "a" "1" [], .mk "a" "2" []]) =
      Value.obj [("a", Value.arr [Value.str "1", Value.str "2"])] ∧
    xmlToObject (.mk "x" "hi" []) = Value.str "hi" := by
  refine ⟨fun tag text => by simp [xmlToObject], fun tag text c cs => by simp [xmlToObject],
    ?_, ?_, ?_, ?_, ?_, by simp [xmlToObject]⟩
  · intro acc tag v h
    simp [insertChild, h, existingTruthy]
  · intro acc tag v w h ht
    simp [insertChild, h, existingTruthy, ht]
  · intro acc tag v ws h
    simp [insertChild, h, existingTruthy, truthy]
  · intro acc tag v w h ht hne
    cases w with
    | arr ws => exact absurd rfl (hne ws)
    | null => simp [truthy] at ht
    | bool b => simp [insertChild, h, existingTruthy, ht]
    | num n => simp [insertChild, h, existingTruthy, ht]
    | str s => simp [insertChild, h, existingTruthy, ht]
    | obj fs => simp [insertChild, h, existingTruthy, ht]
  · simp [xmlToObject, xmlChildren, insertChild, existingTruthy, truthy, getKey,
      setKey, XElem.tag]

theorem xmlToObject_spec_witness :
    insertChild [] "a" (Value.str "1") = [("a", Value.str "1")] ∧
    insertChild [("a", Value.str "")] "a" (Value.str "2") = [("a", Value.str "2")] ∧
    insertChild [("a", Value.str "1")] "a" (Value.str "2") =
      [("a", Value.arr [Value.str "1", Value.str "2"])] ∧
    insertChild [("a", Value.arr [Value.str "1", Value.str "2"])] "a" (Value.str "3") =
      [("a", Value.arr [Value.str "1", Value.str "2", Value.str "3"])] := by
  refine ⟨?_, ?_, ?_, ?_⟩
  · rw [xmlToObject_spec.2.2.1 [] "a" (Value.str "1") (by simp [getKey])]
    simp [setKey]
  · rw [xmlToObject_spec.2.2.2.1 [("a", Value.str "")] "a" (Value.str "2") (Value.str "")
      (by simp [getKey]) (by simp [truthy])]
    simp [setKey]
  · rw [xmlToObject_spec.2.2.2.2.2.1 [("a", Value.str "1")] "a" (Value.str "2") (Value.str "1")
      (by simp [getKey]) (by simp [truthy]) (fun ws => by simp)]
    simp [setKey]
  · rw [xmlToObject_spec.2.2.2.2.1 [("a", Value.arr [Value.str "1", Value.str "2"])] "a"
      (Value.str "3") [Value.str "1", Value.str "2"] (by simp [getKey])]
    simp [setKey]

end FileConverter
